import Mathlib

/-!
Verification development for the device usage pattern tracking subsystem
(event collector, event store, pattern detector, suggestion generator).

The Python source is shallowly embedded as follows:

* timestamps are UTC instants measured in microseconds since the epoch
  (a natural number); Python datetime arithmetic is exact at this scale,
  and ISO-8601 string comparison of such timestamps agrees with numeric
  comparison, which is how SQLite range queries and the retention cutoff
  compare them;
* float arithmetic from the statistics module is idealized as exact
  rational arithmetic (ℚ);
* math.sqrt (inside statistics.stdev) is transcendental, so every
  detector function takes the square-root function as an explicit
  parameter sqrt : ℚ → ℚ; all theorems hold for an arbitrary such
  parameter, and a simple computable stand-in ratSqrt is used to
  instantiate concrete examples (in which all variances are 0, where any
  square root agrees);
* stdev-versus-constant comparisons in the source are embedded as the
  equivalent comparisons of the sample variance against the squared
  constant, which avoids the square root where its value matters;
* Python round(x, n) (banker's rounding on floats) is modelled as
  arithmetic rounding half-up; the two agree except on exact .5 ties,
  which none of the statements below depend on;
* SQLite tables are lists of records plus an autoincrement counter;
  ORDER BY is a stable sort (tie order among equal sort keys is not
  specified by SQLite; the stable choice is one refinement of it);
* Python dicts are association lists in key insertion order.
-/

/-! ### Generic list helpers: stable insertion sort and insertion-ordered grouping -/

def insertSorted (le : α → α → Bool) (a : α) : List α → List α
  | [] => [a]
  | b :: bs => if le a b then a :: b :: bs else b :: insertSorted le a bs

/-- Stable sort (Python list.sort / SQLite ORDER BY model): an element is
placed before the first existing element it compares le-true against. -/
def sortBy (le : α → α → Bool) (l : List α) : List α :=
  l.foldr (insertSorted le) []

/-- Append a value to the group of key k, keeping dict insertion order of keys
(Python defaultdict(list) semantics). -/
def insertGroup [DecidableEq κ] (k : κ) (v : α) : List (κ × List α) → List (κ × List α)
  | [] => [(k, [v])]
  | (k2, vs) :: rest =>
    if k2 = k then (k2, vs ++ [v]) :: rest else (k2, vs) :: insertGroup k v rest

/-- Group a list by a key function, preserving first-occurrence key order and
element order within each group (Python dict-of-lists built in a loop). -/
def groupPairs [DecidableEq κ] (key : β → κ) (val : β → α) (l : List β) : List (κ × List α) :=
  l.foldl (fun acc b => insertGroup (key b) (val b) acc) []

/-- Replace the binding of key k, or append it (Python dict assignment). -/
def assocSet [DecidableEq κ] (k : κ) (v : α) : List (κ × α) → List (κ × α)
  | [] => [(k, v)]
  | (k2, v2) :: rest =>
    if k2 = k then (k2, v) :: rest else (k2, v2) :: assocSet k v rest

/-- Dict lookup. -/
def assocFind [DecidableEq κ] (k : κ) : List (κ × α) → Option α
  | [] => none
  | (k2, v) :: rest => if k2 = k then some v else assocFind k rest

/-- Minimum of a list of naturals, 0 for the empty list (only applied to
nonempty lists, mirroring Python min over a nonempty sequence). -/
def listMinD : List Nat → Nat
  | [] => 0
  | x :: xs => xs.foldl min x

/-- Maximum of a list of naturals, 0 for the empty list. -/
def listMaxD : List Nat → Nat
  | [] => 0
  | x :: xs => xs.foldl max x

/-- Maximum of a list of rationals, 0 for the empty list (Python max over a
nonempty sequence). -/
def listMaxQ : List ℚ → ℚ
  | [] => 0
  | x :: xs => xs.foldl max x

/-! ### Exact rational statistics (statistics.mean / statistics.stdev) -/

def listSum (l : List ℚ) : ℚ := l.foldr (fun a b => a + b) 0

/-- statistics.mean; the source only applies it to nonempty lists (the
empty-list StatisticsError branch is unreachable there). -/
def listMean (l : List ℚ) : ℚ := listSum l / (l.length : ℚ)

/-- The square of statistics.stdev: the Bessel-corrected sample variance.
For fewer than two samples statistics.stdev raises; every use in the source
either guards with a length test or catches the error and skips, so the
value returned here for short lists is never observed. -/
def sampleVariance (l : List ℚ) : ℚ :=
  if 2 ≤ l.length then
    listSum (l.map (fun x => (x - listMean l) * (x - listMean l))) / ((l.length : ℚ) - 1)
  else 0

/-- Python round(x, 2), modelled as arithmetic half-up rounding. -/
def round2 (q : ℚ) : ℚ := ((⌊q * 100 + 1/2⌋ : ℤ) : ℚ) / 100

/-- Python round(x, 1), modelled as arithmetic half-up rounding. -/
def round1 (q : ℚ) : ℚ := ((⌊q * 10 + 1/2⌋ : ℤ) : ℚ) / 10

/-- A computable stand-in square root used to instantiate the sqrt parameter
in concrete examples: exact on perfect squares of naturals (in particular on
0, the only value it is applied to where exactness matters below). -/
def natSqrtBelow (n : Nat) : Nat :=
  (List.range (n + 1)).foldl (fun a k => if k * k ≤ n then k else a) 0

def ratSqrt (q : ℚ) : ℚ := ((natSqrtBelow q.num.toNat : ℚ)) / ((natSqrtBelow q.den : ℚ))

/-- Code-point lexicographic comparison of char lists (Python string <). -/
def charListLt : List Char → List Char → Bool
  | [], [] => false
  | [], _ :: _ => true
  | _ :: _, [] => false
  | a :: as, b :: bs => if a < b then true else if b < a then false else charListLt as bs

def stringLe (a b : String) : Bool := !(charListLt b.data a.data)

/-- Python sorted on a list of strings. -/
def sortStrings (l : List String) : List String := sortBy stringLe l

/-- Two-digit zero padded field of Python f-string formatting. -/
def pad2 (n : Nat) : String := if n < 10 then "0" ++ toString n else toString n

/-! ### Data model (app/patterns/models.py) -/

inductive EventSource
  | assistant
  | external
  | automation
  | unknown
  deriving DecidableEq, Repr

inductive PatternType
  | time_based
  | sequential
  deriving DecidableEq, Repr

/-- DeviceEvent. The attribute bag is carried as an uninterpreted key/value
list; no algorithm in scope reads it. -/
structure DeviceEvent where
  entity_id : String
  domain : String
  old_state : Option String := none
  new_state : String
  timestamp : Nat
  source : EventSource := .unknown
  context_user_id : Option String := none
  context_parent_id : Option String := none
  attributes : List (String × String) := []
  deriving DecidableEq, Repr

/-- The kind-specific pattern_data dict. The variance_minutes field stores
the same rational the source stores (round(stdev, 1)), with the square root
supplied by the detector's sqrt parameter. -/
inductive PatternData
  | time (time_window_start : String) (time_window_end : String)
      (days_of_week : List Nat) (action : String)
      (average_trigger_time : String) (variance_minutes : ℚ)
  | seq (sequence : List (String × String)) (max_delay_seconds : Nat)
      (average_delay_seconds : ℚ)
  deriving DecidableEq, Repr

structure DetectedPattern where
  id : Option Nat := none
  pattern_type : PatternType
  entity_ids : List String
  pattern_data : PatternData
  confidence : ℚ
  occurrence_count : Nat := 1
  first_seen : Nat
  last_seen : Nat
  is_active : Bool := true
  suggestion_generated : Bool := false
  deriving DecidableEq, Repr

/-- The trigger/condition/action dict produced for Home Assistant, carried
as a flat record of the fields the builders write. -/
structure AutomationDef where
  auto_alias : String
  trigger_platform : String
  trigger_at : Option String := none
  trigger_entity_id : Option String := none
  trigger_to : Option String := none
  condition_weekdays : Option (List String) := none
  service : String
  target_entity_id : String
  deriving DecidableEq, Repr

structure PatternSuggestion where
  pattern_id : Nat
  pattern_type : PatternType
  title : String
  description : String
  command : String
  confidence : ℚ
  occurrence_count : Nat
  entities_involved : List String
  automation_yaml : Option AutomationDef := none
  deriving DecidableEq, Repr

/-- Singleton sync_metadata row. -/
structure SyncMetadata where
  last_sync_timestamp : Option Nat := none
  last_sync_entity_count : Nat := 0
  sync_duration_ms : Nat := 0
  error_message : Option String := none
  deriving DecidableEq, Repr

/-- The device_events table plus the sync_metadata row, as read and written
by the collector. Event surrogate ids are not modelled: nothing in scope
reads them back. -/
structure EventStore where
  events : List DeviceEvent
  meta : SyncMetadata := {}
  deriving DecidableEq, Repr

/-- The detected_patterns and user_preferences tables. next_id models the
autoincrement primary key counter of detected_patterns. -/
structure PatternStore where
  rows : List DetectedPattern
  prefs : List (Nat × String) := []
  next_id : Nat
  deriving DecidableEq, Repr

/-! ### Event store operations (app/patterns/database.py) -/

def eventTsLe (a b : DeviceEvent) : Bool := decide (a.timestamp ≤ b.timestamp)

/-- SELECT ... WHERE timestamp BETWEEN ? AND ? ORDER BY timestamp ASC
(ISO string comparison of the stored timestamps agrees with numeric
comparison; ties keep insertion (rowid) order). -/
def get_events_in_range (start stop : Nat) (events : List DeviceEvent) : List DeviceEvent :=
  sortBy eventTsLe
    (events.filter (fun e => decide (start ≤ e.timestamp ∧ e.timestamp ≤ stop)))

/-- insert_event (the returned rowid is not modelled; no caller in scope
reads it back). -/
def insert_event (e : DeviceEvent) (s : EventStore) : EventStore :=
  { s with events := s.events ++ [e] }

/-- insert_events_batch. -/
def insert_events_batch (es : List DeviceEvent) (s : EventStore) : EventStore :=
  { s with events := s.events ++ es }

/-- update_sync_metadata: overwrites the whole singleton row, including
last_sync_timestamp, on every call. -/
def update_sync_metadata (timestamp : Nat) (entity_count : Nat) (duration_ms : Nat)
    (error : Option String) (s : EventStore) : EventStore :=
  { s with meta :=
      { last_sync_timestamp := some timestamp
        last_sync_entity_count := entity_count
        sync_duration_ms := duration_ms
        error_message := error } }

def microsPerDay : Nat := 86400000000

/-- cleanup_old_events: DELETE FROM device_events WHERE timestamp < cutoff,
cutoff = utcnow() - days; returns the SQLite rowcount. -/
def cleanup_old_events (days : Nat) (now : Nat) (s : EventStore) : Nat × EventStore :=
  let cutoff := now - days * microsPerDay
  ((s.events.filter (fun e => decide (e.timestamp < cutoff))).length,
   { s with events := s.events.filter (fun e => decide (¬ e.timestamp < cutoff)) })

/-! ### Pattern store operations (app/patterns/database.py) -/

/-- ORDER BY confidence DESC, occurrence_count DESC. -/
def patternOrder (p q : DetectedPattern) : Bool :=
  decide (q.confidence < p.confidence) ||
    (decide (p.confidence = q.confidence) && decide (q.occurrence_count ≤ p.occurrence_count))

/-- get_active_patterns: WHERE is_active = 1 AND confidence >= ?
ORDER BY confidence DESC, occurrence_count DESC. -/
def get_active_patterns (min_confidence : ℚ) (s : PatternStore) : List DetectedPattern :=
  sortBy patternOrder
    (s.rows.filter (fun r => r.is_active && decide (min_confidence ≤ r.confidence)))

/-- The row a fresh INSERT creates: is_active and suggestion_generated take
their column defaults; the id is the autoincrement key. -/
def insertedRow (newId : Nat) (p : DetectedPattern) : DetectedPattern :=
  { p with id := some newId, is_active := true, suggestion_generated := false }

/-- insert_pattern (the returned rowid is the current counter). -/
def insert_pattern (p : DetectedPattern) (s : PatternStore) : PatternStore :=
  { s with rows := s.rows ++ [insertedRow s.next_id p], next_id := s.next_id + 1 }

/-- The column list actually written by update_pattern's UPDATE statement:
confidence, occurrence_count, last_seen and pattern_data only. In
particular first_seen, entity_ids, pattern_type and is_active are left as
stored. -/
def rowUpdate (p r : DetectedPattern) : DetectedPattern :=
  { r with confidence := p.confidence, occurrence_count := p.occurrence_count,
           last_seen := p.last_seen, pattern_data := p.pattern_data }

/-- update_pattern: no-op when the pattern carries no id, else UPDATE of the
row(s) whose primary key matches. -/
def update_pattern (p : DetectedPattern) (s : PatternStore) : PatternStore :=
  match p.id with
  | none => s
  | some i =>
    { s with rows := s.rows.map (fun r => if r.id = some i then rowUpdate p r else r) }

/-- get_dismissed_pattern_ids: pattern ids having a preference record of
type "dismissed". -/
def get_dismissed_pattern_ids (s : PatternStore) : List Nat :=
  (s.prefs.filter (fun pr => pr.2 = "dismissed")).map (fun pr => pr.1)

/-! ### Event collector (app/patterns/collector.py) -/

def TRACKED_DOMAINS : List String :=
  ["light", "switch", "fan", "cover", "lock", "climate", "media_player",
   "automation", "scene", "script", "input_boolean", "vacuum", "humidifier"]

/-- entity_id.split(".")[0] if "." in entity_id else "unknown". -/
def domainOf (entity_id : String) : String :=
  if entity_id.contains '.' then ((entity_id.splitOn ".").headD "") else "unknown"

/-- record_assistant_event: builds the event verbatim from the arguments
(source = assistant, timestamp = utcnow()) and inserts it. No state
filtering of any kind happens on this path. -/
def record_assistant_event (entity_id : String) (old_state : Option String)
    (new_state : String) (attributes : List (String × String)) (now : Nat)
    (s : EventStore) : EventStore :=
  let domain := domainOf entity_id
  insert_event
    { entity_id := entity_id, domain := domain, old_state := old_state,
      new_state := new_state, timestamp := now, source := .assistant,
      attributes := attributes } s

/-- One state record of the history API response. The last_changed
timestamp is carried already parsed; none models a malformed timestamp
string (the per-record parse failure the source skips). -/
structure StateObj where
  entity_id : String
  state : String
  last_changed : Option Nat
  context_user_id : Option String := none
  context_parent_id : Option String := none
  attributes : List (String × String) := []
  deriving DecidableEq, Repr

/-- Python truthiness of an optional string (context.get(...) checks). -/
def truthy : Option String → Bool
  | none => false
  | some s => !s.isEmpty

/-- determine_source from the HA context. -/
def determine_source (user_id parent_id : Option String) : EventSource :=
  if truthy user_id then .external
  else if truthy parent_id then .automation
  else .unknown

/-- The inner per-entity loop of parse_history_data: sentinel filtering,
no-op collapse against the previous emitted state, per-record timestamp
parse failures skipped. -/
def parseEntityHistory (entity_id domain : String) :
    Option String → List StateObj → List DeviceEvent
  | _, [] => []
  | prev, st :: rest =>
    if st.state = "unavailable" ∨ st.state = "unknown" ∨ st.state = "" then
      parseEntityHistory entity_id domain prev rest
    else if some st.state = prev then
      parseEntityHistory entity_id domain prev rest
    else
      match st.last_changed with
      | none => parseEntityHistory entity_id domain prev rest
      | some ts =>
        { entity_id := entity_id, domain := domain,
          old_state := prev, new_state := st.state, timestamp := ts,
          source := determine_source st.context_user_id st.context_parent_id,
          context_user_id := st.context_user_id,
          context_parent_id := st.context_parent_id,
          attributes := st.attributes } :: parseEntityHistory entity_id domain (some st.state) rest

/-- parse_history_data: per entity history, entity_id and domain come from
the first record; untracked domains are dropped whole. -/
def parse_history_data (history_data : List (List StateObj)) : List DeviceEvent :=
  history_data.foldr
    (fun h acc =>
      match h with
      | [] => acc
      | first :: _ =>
        let entity_id := first.entity_id
        let domain := domainOf entity_id
        if TRACKED_DOMAINS.contains domain then
          parseEntityHistory entity_id domain none h ++ acc
        else acc)
    []

/-- The dedup key (entity_id, e.timestamp.isoformat()[:19], new_state):
the 19-character cut truncates the ISO string to whole seconds, which on
microsecond timestamps is division by 10^6. -/
def dedupKey (e : DeviceEvent) : String × Nat × String :=
  (e.entity_id, e.timestamp / 1000000, e.new_state)

/-- deduplicate_events: drops every new event whose key matches an event
already stored in the one-minute-padded window around the batch. -/
def deduplicate_events (events : List DeviceEvent) (stored : List DeviceEvent) :
    List DeviceEvent :=
  if events.isEmpty then []
  else
    let minTs := listMinD (events.map (fun e => e.timestamp))
    let maxTs := listMaxD (events.map (fun e => e.timestamp))
    let existing := get_events_in_range (minTs - 60000000) (maxTs + 60000000) stored
    let existingKeys := existing.map dedupKey
    events.filter (fun e => decide (¬ dedupKey e ∈ existingKeys))

/-- The fetch window of sync_from_history_api: last sync minus five minutes,
or a seven-day bootstrap window on first sync. hours_back is accepted (the
signature default is 24) but, as in the source, never read. -/
def syncWindow (hours_back : Nat) (last_sync : Option Nat) (now : Nat) : Nat × Nat :=
  match last_sync with
  | some t => (t - 5 * 60 * 1000000, now)
  | none => (now - 7 * microsPerDay, now)

/-- sync_from_history_api. The HTTP history endpoint is abstracted as a
function from the requested window to either a response body or a raised
error (httpx exceptions); wall-clock duration measurement is not modelled
(0 ms). entity_ids is the resolved entity list (the states fetch of
_get_tracked_entity_ids is abstracted into it; it returns [] on its own
failures, which the empty-list branch here covers). -/
def sync_from_history_api (hours_back : Nat) (entity_ids : List String)
    (fetch : Nat → Nat → Except String (List (List StateObj))) (now : Nat)
    (s : EventStore) : (Nat × Option String) × EventStore :=
  let w := syncWindow hours_back s.meta.last_sync_timestamp now
  if entity_ids.isEmpty then
    ((0, none), update_sync_metadata now 0 0 none s)
  else
    match fetch w.1 w.2 with
    | .error e =>
      ((0, some e), update_sync_metadata now 0 0 (some e) s)
    | .ok history_data =>
      let events := parse_history_data history_data
      let uniq := deduplicate_events events s.events
      let s1 := insert_events_batch uniq s
      ((uniq.length, none), update_sync_metadata now uniq.length 0 none s1)

/-! ### Pattern detector (homeassistant-addon .../app/patterns/detector.py) -/

/-- Python datetime.weekday() (Monday = 0) of a UTC microsecond instant;
the epoch day 1970-01-01 was a Thursday (weekday 3). -/
def weekdayOf (ts : Nat) : Nat := (ts / microsPerDay + 3) % 7

/-- timestamp.hour * 60 + timestamp.minute. -/
def minutesOfDay (ts : Nat) : Nat := ts / 60000000 % 1440

/-- times_by_day: day_of_week -> minutes since midnight, in insertion order. -/
def timesByDay (events : List DeviceEvent) : List (Nat × List ℚ) :=
  groupPairs (fun e => weekdayOf e.timestamp)
    (fun e => ((minutesOfDay e.timestamp : Nat) : ℚ)) events

/-- The consistent-day loop of analyze_time_pattern: a day contributes
exactly when it has at least 2 occurrences and stdev ≤ TIME_WINDOW_MINUTES
(30), i.e. sample variance ≤ 900; qualifying days are collected and their
minutes aggregated, in day insertion order. -/
def consistentDaysFold (tbd : List (Nat × List ℚ)) : List Nat × List ℚ :=
  tbd.foldl
    (fun acc dl =>
      if 2 ≤ dl.2.length ∧ sampleVariance dl.2 ≤ 900 then
        (acc.1 ++ [dl.1], acc.2 ++ dl.2)
      else acc)
    ([], [])

/-- The confidence formula of the time-based algorithm, applied to the
occurrence count and the stdev of the aggregated minutes:
round2(clamp(min(1, n/10) * max(0.3, 1 - stdev/60), 0.1, 1)). -/
def timeConfidence (occurrences : Nat) (stdev : ℚ) : ℚ :=
  let base_confidence := min 1 ((occurrences : ℚ) / 10)
  let consistency_factor := max (3/10) (1 - stdev / 60)
  round2 (max (1/10) (min 1 (base_confidence * consistency_factor)))

/-- f"{int(m // 60):02d}:{int(m % 60):02d}" for a nonnegative rational
minute count. -/
def fmtMinutes (q : ℚ) : String :=
  pad2 ((⌊q⌋).toNat / 60) ++ ":" ++ pad2 ((⌊q⌋).toNat % 60)

def TIME_WINDOW_MINUTES : ℚ := 30
def MIN_TIME_OCCURRENCES : Nat := 3

/-- analyze_time_pattern. sqrt is the square-root function used inside
statistics.stdev for the aggregate (day-level stdev comparisons are done on
variances, which is exact). -/
def analyze_time_pattern (sqrt : ℚ → ℚ) (entity_id action : String)
    (events : List DeviceEvent) : Option DetectedPattern :=
  let times_by_day := timesByDay events
  let consistent_days := (consistentDaysFold times_by_day).1
  let all_minutes := (consistentDaysFold times_by_day).2
  if consistent_days.isEmpty ∨ all_minutes.length < MIN_TIME_OCCURRENCES then none
  else
    let avg_minutes := listMean all_minutes
    let variance := if 1 < all_minutes.length then sqrt (sampleVariance all_minutes) else 0
    let fl := (⌊avg_minutes⌋).toNat
    let window_start_min : ℚ := max 0 (avg_minutes - TIME_WINDOW_MINUTES)
    let window_end_min : ℚ := min 1439 (avg_minutes + TIME_WINDOW_MINUTES)
    some
      { pattern_type := .time_based,
        entity_ids := [entity_id],
        pattern_data := .time (fmtMinutes window_start_min) (fmtMinutes window_end_min)
          (sortBy (fun a b => decide (a ≤ b)) consistent_days) action
          (pad2 (fl / 60) ++ ":" ++ pad2 (fl % 60)) (round1 variance),
        confidence := timeConfidence all_minutes.length variance,
        occurrence_count := all_minutes.length,
        first_seen := listMinD (events.map (fun e => e.timestamp)),
        last_seen := listMaxD (events.map (fun e => e.timestamp)) }

/-- The (entity_id, new_state) grouping of detect_time_patterns, with the
sentinel-state skip of the grouping loop. -/
def entityActionGroups (events : List DeviceEvent) :
    List ((String × String) × List DeviceEvent) :=
  groupPairs (fun e => (e.entity_id, e.new_state)) (fun e => e)
    (events.filter (fun e =>
      decide (¬ (e.new_state = "unavailable" ∨ e.new_state = "unknown"))))

def collectTimePatterns (sqrt : ℚ → ℚ) :
    List ((String × String) × List DeviceEvent) → List DetectedPattern
  | [] => []
  | (k, evs) :: rest =>
    if evs.length < MIN_TIME_OCCURRENCES then collectTimePatterns sqrt rest
    else
      match analyze_time_pattern sqrt k.1 k.2 evs with
      | some p => p :: collectTimePatterns sqrt rest
      | none => collectTimePatterns sqrt rest

def detect_time_patterns (sqrt : ℚ → ℚ) (events : List DeviceEvent) :
    List DetectedPattern :=
  collectTimePatterns sqrt (entityActionGroups events)

def MAX_SEQUENCE_DELAY : ℚ := 300
def MIN_SEQUENCE_DELAY : ℚ := 2
def MIN_SEQUENCE_OCCURRENCES : Nat := 2

/-- The inner loop of detect_sequential_patterns scanning forward from
event a: same-entity and sentinel events are skipped (they do not stop the
scan), the scan breaks at the first other-entity non-sentinel event more
than 300 s away, and pairs closer than 2 s are skipped as same trigger. -/
def scanForward (a : DeviceEvent) :
    List DeviceEvent → List ((String × String × String × String) × ℚ)
  | [] => []
  | b :: rest =>
    if a.entity_id = b.entity_id then scanForward a rest
    else if b.new_state = "unavailable" ∨ b.new_state = "unknown" then scanForward a rest
    else
      let delay : ℚ := ((b.timestamp : ℚ) - (a.timestamp : ℚ)) / 1000000
      if MAX_SEQUENCE_DELAY < delay then []
      else if delay < MIN_SEQUENCE_DELAY then scanForward a rest
      else ((a.entity_id, a.new_state, b.entity_id, b.new_state), delay) :: scanForward a rest

/-- The outer pair-collection loop over time-sorted events. -/
def collectPairs : List DeviceEvent → List ((String × String × String × String) × ℚ)
  | [] => []
  | a :: rest =>
    (if a.new_state = "unavailable" ∨ a.new_state = "unknown" then []
     else scanForward a rest) ++ collectPairs rest

/-- The confidence formula of the sequential algorithm: consistency is
max(0.3, 1 - stdev/mean) for two or more delays, else 0.5, and
confidence = round2(clamp(min(1, n/5) * consistency, 0.1, 1)). The mean of
the delays is at least MIN_SEQUENCE_DELAY > 0 wherever the source computes
this, so its ZeroDivisionError guard is unreachable there. -/
def seqConfidence (occurrences : Nat) (stdev mean_delay : ℚ) : ℚ :=
  let consistency := if 1 < occurrences then max (3/10) (1 - stdev / mean_delay) else 1/2
  round2 (max (1/10) (min 1 (min 1 ((occurrences : ℚ) / 5) * consistency)))

/-- One sequential DetectedPattern built from a qualifying delay group.
first_seen/last_seen are estimated from the wall clock, not the events. -/
def mkSeqPattern (sqrt : ℚ → ℚ) (now : Nat)
    (key : String × String × String × String) (delays : List ℚ) : DetectedPattern :=
  let avg_delay := listMean delays
  let max_delay := listMaxQ delays
  let delay_stdev := if 1 < delays.length then sqrt (sampleVariance delays) else 0
  { pattern_type := .sequential,
    entity_ids := [key.1, key.2.2.1],
    pattern_data := .seq [(key.1, key.2.1), (key.2.2.1, key.2.2.2)]
      ((⌊max_delay⌋).toNat) (round1 avg_delay),
    confidence := seqConfidence delays.length delay_stdev avg_delay,
    occurrence_count := delays.length,
    first_seen := now - 14 * microsPerDay,
    last_seen := now }

def collectSeqPatterns (sqrt : ℚ → ℚ) (now : Nat) :
    List ((String × String × String × String) × List ℚ) → List DetectedPattern
  | [] => []
  | (k, delays) :: rest =>
    if delays.length < MIN_SEQUENCE_OCCURRENCES then collectSeqPatterns sqrt now rest
    else mkSeqPattern sqrt now k delays :: collectSeqPatterns sqrt now rest

def detect_sequential_patterns (sqrt : ℚ → ℚ) (now : Nat)
    (events : List DeviceEvent) : List DetectedPattern :=
  let sorted_events := sortBy eventTsLe events
  let sequences := groupPairs (fun pr => pr.1) (fun pr => pr.2) (collectPairs sorted_events)
  collectSeqPatterns sqrt now sequences

/-! ### Reconciliation (detector._persist_patterns) -/

/-- The merge key: (tuple(sorted(entity_ids)), pattern_type). -/
def patternKeyOf (p : DetectedPattern) : List String × PatternType :=
  (sortStrings p.entity_ids, p.pattern_type)

/-- existing_lookup: dict from key to stored pattern; a later element of
the active-pattern list overwrites an earlier one with the same key. -/
def buildLookup (ps : List DetectedPattern) :
    List ((List String × PatternType) × DetectedPattern) :=
  ps.foldl (fun m p => assocSet (patternKeyOf p) p m) []

/-- One iteration of the persist loop: on a key match, update in place with
occurrence_count = max(new, existing) and first_seen = min(new, existing)
set on the in-memory pattern (update_pattern then persists only a subset of
those fields); otherwise insert as new. -/
def applyDetected (lookup : List ((List String × PatternType) × DetectedPattern))
    (s : PatternStore) (p : DetectedPattern) : PatternStore :=
  match assocFind (patternKeyOf p) lookup with
  | some existing_pattern =>
    update_pattern
      { p with id := existing_pattern.id,
               occurrence_count := max p.occurrence_count existing_pattern.occurrence_count,
               first_seen := min p.first_seen existing_pattern.first_seen } s
  | none => insert_pattern p s

def persistLoop (lookup : List ((List String × PatternType) × DetectedPattern)) :
    PatternStore → List DetectedPattern → PatternStore
  | s, [] => s
  | s, p :: rest => persistLoop lookup (applyDetected lookup s p) rest

/-- persist_patterns: the lookup is built once, from the active patterns at
entry (min_confidence = 0), and is not refreshed inside the loop. -/
def persist_patterns (patterns : List DetectedPattern) (s : PatternStore) : PatternStore :=
  persistLoop (buildLookup (get_active_patterns 0 s)) s patterns

/-- detect_all_patterns(lookback_days): reads the event window ending at
utcnow(), runs both algorithms, persists, and returns what was found. -/
def detect_all_patterns (sqrt : ℚ → ℚ) (now : Nat) (lookback_days : Nat)
    (events : List DeviceEvent) (s : PatternStore) :
    List DetectedPattern × PatternStore :=
  let evs := get_events_in_range (now - lookback_days * microsPerDay) now events
  if evs.isEmpty then ([], s)
  else
    let patterns := detect_time_patterns sqrt evs ++ detect_sequential_patterns sqrt now evs
    (patterns, persist_patterns patterns s)

/-! ### Suggestion generator (app/patterns/suggestions.py) -/

def DAY_NAMES : List String :=
  ["Monday", "Tuesday", "Wednesday", "Thursday", "Friday", "Saturday", "Sunday"]

def DAY_ABBREVS : List String := ["mon", "tue", "wed", "thu", "fri", "sat", "sun"]

/-- Python set equality of day-number collections. -/
def setEqNat (a b : List Nat) : Bool :=
  a.all (fun x => x ∈ b) && b.all (fun x => x ∈ a)

/-- format_days. -/
def format_days (days : List Nat) : String :=
  if days.isEmpty then "every day"
  else if setEqNat days [0, 1, 2, 3, 4] then "weekdays"
  else if setEqNat days [5, 6] then "weekends"
  else if setEqNat days [0, 1, 2, 3, 4, 5, 6] then "every day"
  else
    String.intercalate ", "
      ((sortBy (fun a b => decide (a ≤ b)) days).map (fun d => DAY_NAMES.getD d ""))

/-- format_action (every branch of the source returns the action itself). -/
def format_action (action : String) : String :=
  if action = "on" then "on"
  else if action = "off" then "off"
  else if action = "locked" ∨ action = "unlocked" ∨ action = "open" ∨ action = "closed" then action
  else action

/-- Approximation of Python str.title on the space-separated words the
fallback produces (title additionally re-capitalizes after any non-letter,
e.g. inside alphanumeric words; no statement below reads these strings). -/
def titleize (s : String) : String :=
  String.intercalate " " ((s.splitOn " ").map String.capitalize)

/-- get_friendly_name: the entity cache is abstracted as an optional lookup
(collaborator injected in the source); a miss or absent cache falls back to
the readable suffix of the entity id. -/
def get_friendly_name (cache : Option (String → Option String)) (entity_id : String) : String :=
  let fallbackBase :=
    if entity_id.contains '.' then (entity_id.splitOn ".").getLastD entity_id else entity_id
  let fallback := titleize (fallbackBase.replace "_" " ")
  match cache with
  | some lookup =>
    match lookup entity_id with
    | some n => n
    | none => fallback
  | none => fallback

/-- dict.get accessors used on pattern_data, with the literal defaults of
the source for a dict missing the key (a pattern whose data is of the other
kind). -/
def dataAction : PatternData → String
  | .time _ _ _ a _ _ => a
  | .seq _ _ _ => "on"

def dataAvgTime : PatternData → String
  | .time _ _ _ _ t _ => t
  | .seq _ _ _ => "00:00"

def dataDays : PatternData → List Nat
  | .time _ _ d _ _ _ => d
  | .seq _ _ _ => []

def dataSequence : PatternData → List (String × String)
  | .seq s _ _ => s
  | .time _ _ _ _ _ _ => []

def dataAvgDelay : PatternData → ℚ
  | .seq _ _ d => d
  | .time _ _ _ _ _ _ => 0

/-- entity_id.split(".")[0] as used by the automation builders (unlike
domainOf, no "unknown" fallback). -/
def headDomain (entity_id : String) : String := (entity_id.splitOn ".").headD entity_id

def tailName (entity_id : String) : String := (entity_id.splitOn ".").getLastD entity_id

/-- build_time_automation. -/
def build_time_automation (entity_id action time : String) (days : List Nat) : AutomationDef :=
  let domain := headDomain entity_id
  let service := if action = "on" ∨ action = "off" then "turn_" ++ action else action
  let conditions :=
    if (!days.isEmpty) && !(setEqNat days [0, 1, 2, 3, 4, 5, 6]) then
      some (days.map (fun d => DAY_ABBREVS.getD d ""))
    else none
  { auto_alias := "Auto " ++ tailName entity_id ++ " " ++ action ++ " at " ++ time.replace ":" "",
    trigger_platform := "time",
    trigger_at := some time,
    condition_weekdays := conditions,
    service := domain ++ "." ++ service,
    target_entity_id := entity_id }

/-- build_trigger_automation. -/
def build_trigger_automation (trigger_entity trigger_state action_entity action_state : String) :
    AutomationDef :=
  let domain := headDomain action_entity
  let service :=
    if action_state = "on" ∨ action_state = "off" then "turn_" ++ action_state
    else if action_state = "locked" then "lock"
    else if action_state = "unlocked" then "unlock"
    else if action_state = "open" then "open_cover"
    else if action_state = "closed" then "close_cover"
    else action_state
  { auto_alias := "Auto " ++ tailName trigger_entity ++ " triggers " ++ tailName action_entity,
    trigger_platform := "state",
    trigger_entity_id := some trigger_entity,
    trigger_to := some trigger_state,
    service := domain ++ "." ++ service,
    target_entity_id := action_entity }

/-- time_pattern_to_suggestion (None if the pattern carries no id; the
source indexes entity_ids[0], which the detector always populates). -/
def time_pattern_to_suggestion (cache : Option (String → Option String))
    (p : DetectedPattern) : Option PatternSuggestion :=
  match p.id with
  | none => none
  | some pid =>
    let data := p.pattern_data
    let entity_id := p.entity_ids.headD ""
    let friendly_name := get_friendly_name cache entity_id
    let action := dataAction data
    let avg_time := dataAvgTime data
    let days := dataDays data
    let days_str := format_days days
    some
      { pattern_id := pid,
        pattern_type := p.pattern_type,
        title := "Automate " ++ friendly_name,
        description := "You turn " ++ friendly_name ++ " " ++ format_action action ++
          " around " ++ avg_time ++ " on " ++ days_str ++ ". Detected " ++
          toString p.occurrence_count ++ " times.",
        command := "Create an automation to turn " ++ friendly_name ++ " " ++ action ++
          " at " ++ avg_time ++ " on " ++ days_str,
        confidence := p.confidence,
        occurrence_count := p.occurrence_count,
        entities_involved := p.entity_ids,
        automation_yaml := some (build_time_automation entity_id action avg_time days) }

/-- sequential_pattern_to_suggestion. -/
def sequential_pattern_to_suggestion (cache : Option (String → Option String))
    (p : DetectedPattern) : Option PatternSuggestion :=
  match p.id with
  | none => none
  | some pid =>
    match dataSequence p.pattern_data with
    | trigger :: action :: _ =>
      let trigger_name := get_friendly_name cache trigger.1
      let action_name := get_friendly_name cache action.1
      let avg_delay := dataAvgDelay p.pattern_data
      let delay_str :=
        if avg_delay < 60 then toString ((⌊avg_delay⌋).toNat) ++ " seconds"
        else toString ((⌊avg_delay / 60⌋).toNat) ++ " minutes"
      some
        { pattern_id := pid,
          pattern_type := p.pattern_type,
          title := "Link " ++ trigger_name ++ " to " ++ action_name,
          description := "When " ++ trigger_name ++ " becomes " ++ trigger.2 ++
            ", you typically set " ++ action_name ++ " to " ++ action.2 ++
            " within " ++ delay_str ++ ". Detected " ++
            toString p.occurrence_count ++ " times.",
          command := "Create an automation that turns " ++ action_name ++ " " ++ action.2 ++
            " when " ++ trigger_name ++ " becomes " ++ trigger.2,
          confidence := p.confidence,
          occurrence_count := p.occurrence_count,
          entities_involved := p.entity_ids,
          automation_yaml := some (build_trigger_automation trigger.1 trigger.2 action.1 action.2) }
    | _ => none

def pattern_to_suggestion (cache : Option (String → Option String))
    (p : DetectedPattern) : Option PatternSuggestion :=
  match p.pattern_type with
  | .time_based => time_pattern_to_suggestion cache p
  | .sequential => sequential_pattern_to_suggestion cache p

/-- sort key (confidence, occurrence_count) with reverse=True. -/
def suggestionOrder (a b : PatternSuggestion) : Bool :=
  decide (b.confidence < a.confidence) ||
    (decide (a.confidence = b.confidence) && decide (b.occurrence_count ≤ a.occurrence_count))

/-- generate_suggestions(min_confidence=0.4, max_suggestions=5). -/
def generate_suggestions (cache : Option (String → Option String))
    (min_confidence : ℚ) (max_suggestions : Nat) (s : PatternStore) :
    List PatternSuggestion :=
  let patterns := get_active_patterns min_confidence s
  let dismissed_ids := get_dismissed_pattern_ids s
  let kept := patterns.filter (fun p => decide (¬ p.id ∈ dismissed_ids.map some))
  let suggestions := kept.filterMap (pattern_to_suggestion cache)
  (sortBy suggestionOrder suggestions).take max_suggestions

/-! ### Lemmas about the stable sort -/

theorem insertSorted_perm (le : α → α → Bool) (a : α) (l : List α) :
    List.Perm (insertSorted le a l) (a :: l) := by
  induction l with
  | nil => simp [insertSorted]
  | cons b bs ih =>
    by_cases h : le a b = true
    · simp [insertSorted, h]
    · simp only [insertSorted, h, if_false, Bool.false_eq_true]
      exact (ih.cons b).trans (List.Perm.swap a b bs)

theorem sortBy_perm (le : α → α → Bool) (l : List α) : List.Perm (sortBy le l) l := by
  induction l with
  | nil => simp [sortBy]
  | cons a as ih => exact (insertSorted_perm le a (sortBy le as)).trans (ih.cons a)

theorem mem_sortBy (le : α → α → Bool) (l : List α) (x : α) :
    x ∈ sortBy le l ↔ x ∈ l :=
  (sortBy_perm le l).mem_iff

theorem pairwise_insertSorted (le : α → α → Bool)
    (htot : ∀ a b, le a b = true ∨ le b a = true)
    (htrans : ∀ a b c, le a b = true → le b c = true → le a c = true)
    (a : α) (l : List α) (h : l.Pairwise (fun x y => le x y = true)) :
    (insertSorted le a l).Pairwise (fun x y => le x y = true) := by
  induction l with
  | nil => simp [insertSorted]
  | cons b bs ih =>
    rcases List.pairwise_cons.mp h with ⟨hb, hbs⟩
    by_cases hab : le a b = true
    · rw [insertSorted, if_pos hab]
      refine List.pairwise_cons.mpr ⟨?_, h⟩
      intro x hx
      rcases List.mem_cons.mp hx with rfl | hx
      · exact hab
      · exact htrans a b x hab (hb x hx)
    · rw [insertSorted, if_neg hab]
      refine List.pairwise_cons.mpr ⟨?_, ih hbs⟩
      intro x hx
      rcases List.mem_cons.mp ((insertSorted_perm le a bs).mem_iff.mp hx) with rfl | hx
      · rcases htot x b with h1 | h1
        · exact absurd h1 hab
        · exact h1
      · exact hb x hx

theorem pairwise_sortBy (le : α → α → Bool)
    (htot : ∀ a b, le a b = true ∨ le b a = true)
    (htrans : ∀ a b c, le a b = true → le b c = true → le a c = true)
    (l : List α) : (sortBy le l).Pairwise (fun x y => le x y = true) := by
  induction l with
  | nil => simp [sortBy]
  | cons a as ih => exact pairwise_insertSorted le htot htrans a (sortBy le as) ih

theorem sortBy_pairwise_of {R : α → α → Prop} (hsymm : ∀ {x y}, R x y → R y x)
    (le : α → α → Bool) (l : List α) (h : l.Pairwise R) :
    (sortBy le l).Pairwise R :=
  ((sortBy_perm le l).pairwise_iff hsymm).mpr h

/-! ### Lemmas about association lists and existing_lookup -/

theorem assocFind_assocSet [DecidableEq κ] (k k2 : κ) (v : α) (m : List (κ × α)) :
    assocFind k (assocSet k2 v m) = if k2 = k then some v else assocFind k m := by
  induction m with
  | nil => simp [assocSet, assocFind]
  | cons kv rest ih =>
    obtain ⟨k3, v3⟩ := kv
    by_cases h : k3 = k2
    · subst h
      by_cases hk : k3 = k
      · simp [assocSet, assocFind, hk]
      · simp [assocSet, assocFind, hk]
    · by_cases hk : k3 = k
      · subst hk
        have : ¬ k2 = k3 := fun hh => h hh.symm
        simp [assocSet, assocFind, h, this]
      · simp [assocSet, assocFind, h, hk, ih]

theorem assocFind_buildLookup_aux (ps : List DetectedPattern)
    (m : List ((List String × PatternType) × DetectedPattern))
    (k : List String × PatternType) :
    assocFind k (ps.foldl (fun m p => assocSet (patternKeyOf p) p m) m) =
      match ps.reverse.find? (fun p => decide (patternKeyOf p = k)) with
      | some q => some q
      | none => assocFind k m := by
  induction ps generalizing m with
  | nil => simp
  | cons p ps ih =>
    have step : (p :: ps).foldl (fun m p => assocSet (patternKeyOf p) p m) m =
        ps.foldl (fun m p => assocSet (patternKeyOf p) p m) (assocSet (patternKeyOf p) p m) := rfl
    rw [step, ih]
    have hrev : (p :: ps).reverse = ps.reverse ++ [p] := by simp
    rw [hrev, List.find?_append]
    cases hfind : ps.reverse.find? (fun p => decide (patternKeyOf p = k)) with
    | some q => simp [Option.or]
    | none =>
      by_cases hk : patternKeyOf p = k
      · simp [Option.or, List.find?, hk, assocFind_assocSet]
      · simp [Option.or, List.find?, hk, assocFind_assocSet]

theorem assocFind_buildLookup (ps : List DetectedPattern) (k : List String × PatternType) :
    assocFind k (buildLookup ps) =
      ps.reverse.find? (fun p => decide (patternKeyOf p = k)) := by
  unfold buildLookup
  rw [assocFind_buildLookup_aux]
  cases ps.reverse.find? (fun p => decide (patternKeyOf p = k)) <;> simp [assocFind]

theorem buildLookup_some {ps : List DetectedPattern} {k : List String × PatternType}
    {ex : DetectedPattern} (h : assocFind k (buildLookup ps) = some ex) :
    ex ∈ ps ∧ patternKeyOf ex = k := by
  rw [assocFind_buildLookup] at h
  refine ⟨List.mem_reverse.mp (List.mem_of_find?_eq_some h), ?_⟩
  have := List.find?_some h
  simpa using this

theorem buildLookup_none_iff (ps : List DetectedPattern) (k : List String × PatternType) :
    assocFind k (buildLookup ps) = none ↔ ∀ p ∈ ps, patternKeyOf p ≠ k := by
  rw [assocFind_buildLookup, List.find?_eq_none]
  constructor
  · intro h p hp
    have := h p (List.mem_reverse.mpr hp)
    simpa using this
  · intro h p hp
    simp [h p (List.mem_reverse.mp hp)]

/-! ### Lemmas about store reads -/

theorem mem_get_active {c : ℚ} {s : PatternStore} {p : DetectedPattern} :
    p ∈ get_active_patterns c s ↔
      p ∈ s.rows ∧ p.is_active = true ∧ c ≤ p.confidence := by
  unfold get_active_patterns
  rw [mem_sortBy, List.mem_filter]
  simp [and_assoc]

theorem mem_get_events_in_range {start stop : Nat} {events : List DeviceEvent}
    {e : DeviceEvent} :
    e ∈ get_events_in_range start stop events ↔
      e ∈ events ∧ start ≤ e.timestamp ∧ e.timestamp ≤ stop := by
  unfold get_events_in_range
  rw [mem_sortBy, List.mem_filter]
  simp [and_assoc]

/-! ### Confidence bounds -/

theorem round2_nonneg {q : ℚ} (h : 0 ≤ q) : 0 ≤ round2 q := by
  unfold round2
  have h1 : (0 : ℤ) ≤ ⌊q * 100 + 1/2⌋ := by
    rw [Int.le_floor]
    push_cast
    linarith
  have h2 : (0 : ℚ) ≤ (⌊q * 100 + 1/2⌋ : ℚ) := by exact_mod_cast h1
  linarith

theorem round2_le_one {q : ℚ} (h : q ≤ 1) : round2 q ≤ 1 := by
  unfold round2
  have h1 : ⌊q * 100 + 1/2⌋ < 101 := by
    rw [Int.floor_lt]
    push_cast
    linarith
  have h2 : (⌊q * 100 + 1/2⌋ : ℚ) ≤ 100 := by exact_mod_cast Int.lt_add_one_iff.mp h1
  linarith

/-- The final clamp max(0.1, min(1.0, x)) of both confidence formulas keeps
any input inside [1/10, 1]. -/
theorem clampConf_bounds (x : ℚ) :
    0 ≤ round2 (max (1/10) (min 1 x)) ∧ round2 (max (1/10) (min 1 x)) ≤ 1 := by
  have hlo : (0 : ℚ) ≤ max (1/10) (min 1 x) :=
    le_trans (by norm_num) (le_max_left _ _)
  have hhi : max (1/10) (min 1 x) ≤ 1 :=
    max_le (by norm_num) (min_le_left _ _)
  exact ⟨round2_nonneg hlo, round2_le_one hhi⟩

theorem timeConfidence_bounds (n : Nat) (stdev : ℚ) :
    0 ≤ timeConfidence n stdev ∧ timeConfidence n stdev ≤ 1 := by
  unfold timeConfidence
  exact clampConf_bounds _

theorem seqConfidence_bounds (n : Nat) (stdev mean_delay : ℚ) :
    0 ≤ seqConfidence n stdev mean_delay ∧ seqConfidence n stdev mean_delay ≤ 1 := by
  unfold seqConfidence
  exact clampConf_bounds _

theorem analyze_time_pattern_confidence {sqrt : ℚ → ℚ} {entity_id action : String}
    {events : List DeviceEvent} {p : DetectedPattern}
    (h : analyze_time_pattern sqrt entity_id action events = some p) :
    ∃ n v, p.confidence = timeConfidence n v := by
  simp only [analyze_time_pattern] at h
  split at h
  · exact absurd h (by simp)
  · rw [← Option.some_inj.mp h]
    exact ⟨_, _, rfl⟩

theorem collectTimePatterns_confidence {sqrt : ℚ → ℚ}
    {gs : List ((String × String) × List DeviceEvent)} {p : DetectedPattern}
    (h : p ∈ collectTimePatterns sqrt gs) :
    ∃ n v, p.confidence = timeConfidence n v := by
  induction gs with
  | nil => simp [collectTimePatterns] at h
  | cons g rest ih =>
    obtain ⟨k, evs⟩ := g
    unfold collectTimePatterns at h
    split at h
    · exact ih h
    · cases hana : analyze_time_pattern sqrt k.1 k.2 evs with
      | none => rw [hana] at h; exact ih h
      | some q =>
        rw [hana] at h
        rcases List.mem_cons.mp h with rfl | h
        · exact analyze_time_pattern_confidence hana
        · exact ih h

theorem collectSeqPatterns_confidence {sqrt : ℚ → ℚ} {now : Nat}
    {seqs : List ((String × String × String × String) × List ℚ)} {p : DetectedPattern}
    (h : p ∈ collectSeqPatterns sqrt now seqs) :
    ∃ n sd ad, p.confidence = seqConfidence n sd ad := by
  induction seqs with
  | nil => simp [collectSeqPatterns] at h
  | cons g rest ih =>
    obtain ⟨k, delays⟩ := g
    unfold collectSeqPatterns at h
    split at h
    · exact ih h
    · rcases List.mem_cons.mp h with rfl | h
      · exact ⟨_, _, _, rfl⟩
      · exact ih h

theorem detect_time_patterns_confidence {sqrt : ℚ → ℚ} {events : List DeviceEvent}
    {p : DetectedPattern} (h : p ∈ detect_time_patterns sqrt events) :
    ∃ n v, p.confidence = timeConfidence n v :=
  collectTimePatterns_confidence h

theorem detect_sequential_patterns_confidence {sqrt : ℚ → ℚ} {now : Nat}
    {events : List DeviceEvent} {p : DetectedPattern}
    (h : p ∈ detect_sequential_patterns sqrt now events) :
    ∃ n sd ad, p.confidence = seqConfidence n sd ad :=
  collectSeqPatterns_confidence h

/-- Every pattern returned by a detection run has confidence in [0, 1]
(indeed in [0.1, 1]); shared input to the reconciliation lemmas. -/
theorem detected_confidence_bounds {sqrt : ℚ → ℚ} {now : Nat}
    {events : List DeviceEvent} {p : DetectedPattern}
    (h : p ∈ detect_time_patterns sqrt events ++ detect_sequential_patterns sqrt now events) :
    0 ≤ p.confidence ∧ p.confidence ≤ 1 := by
  rcases List.mem_append.mp h with h | h
  · obtain ⟨n, v, hc⟩ := detect_time_patterns_confidence h
    rw [hc]; exact timeConfidence_bounds n v
  · obtain ⟨n, sd, ad, hc⟩ := detect_sequential_patterns_confidence h
    rw [hc]; exact seqConfidence_bounds n sd ad

/-! ### Store well-formedness (primary key discipline of SQLite) -/

def idBelow (o : Option Nat) (n : Nat) : Bool :=
  match o with
  | some i => decide (i < n)
  | none => false

/-- Every row has a primary key below the autoincrement counter, and keys
are unique: what SQLite guarantees for the detected_patterns table. -/
def storeWF (s : PatternStore) : Prop :=
  (∀ r ∈ s.rows, idBelow r.id s.next_id = true) ∧
    s.rows.Pairwise (fun a b => a.id ≠ b.id)

/-- The active rows carry pairwise-distinct merge keys (the steady state
the reconciliation is designed around). -/
def activesKeyDistinct (s : PatternStore) : Prop :=
  (s.rows.filter (fun r => r.is_active)).Pairwise
    (fun a b => patternKeyOf a ≠ patternKeyOf b)

theorem id_unique {s : PatternStore} (h : storeWF s) {a b : DetectedPattern}
    (ha : a ∈ s.rows) (hb : b ∈ s.rows) (hid : a.id = b.id) : a = b := by
  by_contra hne
  have hsymm : Symmetric (fun a b : DetectedPattern => a.id ≠ b.id) :=
    fun x y hxy e => hxy e.symm
  exact (h.2.forall hsymm ha hb hne) hid

theorem active_unique {s : PatternStore} (h : activesKeyDistinct s)
    {a b : DetectedPattern} (ha : a ∈ s.rows) (hb : b ∈ s.rows)
    (haa : a.is_active = true) (hba : b.is_active = true)
    (hk : patternKeyOf a = patternKeyOf b) : a = b := by
  by_contra hne
  have hsymm : Symmetric (fun a b : DetectedPattern => patternKeyOf a ≠ patternKeyOf b) :=
    fun x y hxy e => hxy e.symm
  have ha2 : a ∈ s.rows.filter (fun r => r.is_active) :=
    List.mem_filter.mpr ⟨ha, haa⟩
  have hb2 : b ∈ s.rows.filter (fun r => r.is_active) :=
    List.mem_filter.mpr ⟨hb, hba⟩
  exact (h.forall hsymm ha2 hb2 hne) hk

theorem rowUpdate_id (p r : DetectedPattern) : (rowUpdate p r).id = r.id := rfl

theorem rowUpdate_key (p r : DetectedPattern) :
    patternKeyOf (rowUpdate p r) = patternKeyOf r := rfl

theorem rowUpdate_active (p r : DetectedPattern) :
    (rowUpdate p r).is_active = r.is_active := rfl

theorem rowUpdate_first_seen (p r : DetectedPattern) :
    (rowUpdate p r).first_seen = r.first_seen := rfl

theorem insertedRow_key (n : Nat) (p : DetectedPattern) :
    patternKeyOf (insertedRow n p) = patternKeyOf p := rfl

theorem filter_map_comm (l : List α) (f : α → α) (p : α → Bool)
    (h : ∀ a, p (f a) = p a) :
    (l.map f).filter p = (l.filter p).map f := by
  induction l with
  | nil => rfl
  | cons a as ih =>
    by_cases hp : p a = true
    · simp [List.filter, h, hp, ih]
    · simp only [Bool.not_eq_true] at hp
      simp [List.filter, h, hp, ih]

/-- Lookup entries come from the active rows of the base store, carry the
key they are filed under, and have nonnegative confidence. -/
theorem lookup_mem {s₀ : PatternStore} {k : List String × PatternType}
    {ex : DetectedPattern}
    (h : assocFind k (buildLookup (get_active_patterns 0 s₀)) = some ex) :
    ex ∈ s₀.rows ∧ ex.is_active = true ∧ 0 ≤ ex.confidence ∧ patternKeyOf ex = k := by
  obtain ⟨hmem, hkey⟩ := buildLookup_some h
  obtain ⟨hrow, hact, hconf⟩ := mem_get_active.mp hmem
  exact ⟨hrow, hact, hconf, hkey⟩

/-- Conversely every active row with nonnegative confidence is reachable
through the lookup (at its own key some entry exists). -/
theorem lookup_total {s₀ : PatternStore} {r : DetectedPattern}
    (hr : r ∈ s₀.rows) (hact : r.is_active = true) (hconf : 0 ≤ r.confidence) :
    assocFind (patternKeyOf r) (buildLookup (get_active_patterns 0 s₀)) ≠ none := by
  intro hnone
  have := (buildLookup_none_iff _ _).mp hnone r (mem_get_active.mpr ⟨hr, hact, hconf⟩)
  exact this rfl

/-! ### The persist loop invariant -/

theorem idBelow_mono {o : Option Nat} {n m : Nat} (h : idBelow o n = true)
    (hnm : n ≤ m) : idBelow o m = true := by
  cases o with
  | none => simp [idBelow] at h
  | some i =>
    simp only [idBelow, decide_eq_true_eq] at h ⊢
    exact lt_of_lt_of_le h hnm

/-- Loop invariant of _persist_patterns: pre is the processed part of the
detected list, st the current store; the lookup is built from the entry
store s₀ and never refreshed. -/
structure PersistInv (s₀ : PatternStore) (pre : List DetectedPattern)
    (st : PatternStore) : Prop where
  wf : storeWF st
  nid : s₀.next_id ≤ st.next_id
  conf_nonneg : ∀ r ∈ st.rows, 0 ≤ r.confidence
  keys_dom : ∀ r ∈ st.rows, r.is_active = true →
    (∃ r0 ∈ s₀.rows, r0.is_active = true ∧ patternKeyOf r0 = patternKeyOf r) ∨
      (∃ q ∈ pre, patternKeyOf q = patternKeyOf r)
  act_distinct : activesKeyDistinct st
  fresh : ∀ q ∈ pre, ∀ r ∈ st.rows, r.is_active = true →
    patternKeyOf r = patternKeyOf q →
    r.pattern_data = q.pattern_data ∧ r.confidence = q.confidence ∧
      r.last_seen = q.last_seen ∧ q.occurrence_count ≤ r.occurrence_count
  covered : ∀ q ∈ pre, ∃ r ∈ st.rows, r.is_active = true ∧
    patternKeyOf r = patternKeyOf q
  idfacts : ∀ k ex, assocFind k (buildLookup (get_active_patterns 0 s₀)) = some ex →
    (∃ r ∈ st.rows, r.id = ex.id) ∧
      ∀ r ∈ st.rows, r.id = ex.id →
        patternKeyOf r = patternKeyOf ex ∧ r.is_active = true ∧
          ex.occurrence_count ≤ r.occurrence_count

theorem persistInv_base {s₀ : PatternStore} (h1 : storeWF s₀)
    (h2 : ∀ r ∈ s₀.rows, 0 ≤ r.confidence) (h3 : activesKeyDistinct s₀) :
    PersistInv s₀ [] s₀ := by
  refine ⟨h1, le_refl _, h2, ?_, h3, ?_, ?_, ?_⟩
  · intro r hr hact; exact Or.inl ⟨r, hr, hact, rfl⟩
  · intro q hq; exact absurd hq (List.not_mem_nil q)
  · intro q hq; exact absurd hq (List.not_mem_nil q)
  · intro k ex hex
    obtain ⟨hexmem, hexact, _, _⟩ := lookup_mem hex
    refine ⟨⟨ex, hexmem, rfl⟩, ?_⟩
    intro r hr hid
    have hre : r = ex := id_unique h1 hr hexmem hid
    subst hre
    exact ⟨rfl, hexact, le_refl _⟩

theorem persistInv_step {s₀ : PatternStore} {pre : List DetectedPattern}
    {st : PatternStore} {p : DetectedPattern}
    (inv : PersistInv s₀ pre st)
    (h0 : storeWF s₀) (h0c : ∀ r ∈ s₀.rows, 0 ≤ r.confidence)
    (hpre : ∀ q ∈ pre, patternKeyOf q ≠ patternKeyOf p)
    (hpc : 0 ≤ p.confidence) :
    PersistInv s₀ (pre ++ [p])
      (applyDetected (buildLookup (get_active_patterns 0 s₀)) st p) := by
  cases hfind : assocFind (patternKeyOf p) (buildLookup (get_active_patterns 0 s₀)) with
  | none =>
    have happ : applyDetected (buildLookup (get_active_patterns 0 s₀)) st p =
        insert_pattern p st := by
      unfold applyDetected
      rw [hfind]
    rw [happ]
    simp only [insert_pattern]
    -- no active row of s₀ carries p's key
    have hnoact : ∀ r ∈ s₀.rows, r.is_active = true → patternKeyOf r ≠ patternKeyOf p := by
      intro r hr hact hk
      have hmem : r ∈ get_active_patterns 0 s₀ :=
        mem_get_active.mpr ⟨hr, hact, h0c r hr⟩
      exact (buildLookup_none_iff _ _).mp hfind r hmem hk
    -- hence (through keys_dom) no active row of st carries it either
    have hstact : ∀ r ∈ st.rows, r.is_active = true → patternKeyOf r ≠ patternKeyOf p := by
      intro r hr hact hk
      rcases inv.keys_dom r hr hact with ⟨r0, hr0, hr0act, hr0k⟩ | ⟨q, hq, hqk⟩
      · exact hnoact r0 hr0 hr0act (hr0k.trans hk)
      · exact hpre q hq (hqk.trans hk)
    have hnewid : ∀ r ∈ st.rows, r.id ≠ some st.next_id := by
      intro r hr hid
      have := inv.wf.1 r hr
      rw [hid] at this
      simp [idBelow] at this
    refine ⟨⟨?_, ?_⟩, ?_, ?_, ?_, ?_, ?_, ?_, ?_⟩
    · -- ids below the bumped counter
      intro r hr
      rcases List.mem_append.mp hr with hr | hr
      · exact idBelow_mono (inv.wf.1 r hr) (Nat.le_succ _)
      · rcases List.mem_singleton.mp hr with rfl
        simp [insertedRow, idBelow]
    · -- pairwise distinct ids
      rw [List.pairwise_append]
      refine ⟨inv.wf.2, List.pairwise_singleton _ _, ?_⟩
      intro a ha b hb
      rcases List.mem_singleton.mp hb with rfl
      exact hnewid a ha
    · exact le_trans inv.nid (Nat.le_succ _)
    · intro r hr
      rcases List.mem_append.mp hr with hr | hr
      · exact inv.conf_nonneg r hr
      · rcases List.mem_singleton.mp hr with rfl
        exact hpc
    · intro r hr hact
      rcases List.mem_append.mp hr with hr | hr
      · rcases inv.keys_dom r hr hact with h | ⟨q, hq, hqk⟩
        · exact Or.inl h
        · exact Or.inr ⟨q, List.mem_append_left _ hq, hqk⟩
      · rcases List.mem_singleton.mp hr with rfl
        exact Or.inr ⟨p, List.mem_append_right _ (List.mem_singleton_self p),
          (insertedRow_key _ _).symm⟩
    · -- active keys stay pairwise distinct
      show ((st.rows ++ [insertedRow st.next_id p]).filter (fun r => r.is_active)).Pairwise _
      rw [List.filter_append]
      have hnew : ([insertedRow st.next_id p].filter (fun r => r.is_active)) =
          [insertedRow st.next_id p] := by
        simp [insertedRow]
      rw [hnew, List.pairwise_append]
      refine ⟨inv.act_distinct, List.pairwise_singleton _ _, ?_⟩
      intro a ha b hb
      rcases List.mem_singleton.mp hb with rfl
      obtain ⟨ha, haact⟩ := List.mem_filter.mp ha
      rw [insertedRow_key]
      exact hstact a ha haact
    · -- fresh fields for every processed pattern
      intro q hq r hr hact hk
      rcases List.mem_append.mp hq with hq | hq
      · rcases List.mem_append.mp hr with hr | hr
        · exact inv.fresh q hq r hr hact hk
        · rcases List.mem_singleton.mp hr with rfl
          rw [insertedRow_key] at hk
          exact absurd hk.symm (hpre q hq)
      · rcases List.mem_singleton.mp hq with rfl
        rcases List.mem_append.mp hr with hr | hr
        · exact absurd hk (hstact r hr hact)
        · rcases List.mem_singleton.mp hr with rfl
          exact ⟨rfl, rfl, rfl, le_refl _⟩
    · intro q hq
      rcases List.mem_append.mp hq with hq | hq
      · obtain ⟨r, hr, hract, hrk⟩ := inv.covered q hq
        exact ⟨r, List.mem_append_left _ hr, hract, hrk⟩
      · rcases List.mem_singleton.mp hq with rfl
        exact ⟨insertedRow st.next_id q,
          List.mem_append_right _ (List.mem_singleton_self _), rfl, insertedRow_key _ _⟩
    · intro k2 ex2 hfind2
      obtain ⟨⟨r, hr, hrid⟩, hfacts⟩ := inv.idfacts k2 ex2 hfind2
      obtain ⟨hex2mem, _, _, _⟩ := lookup_mem hfind2
      have hex2below := h0.1 ex2 hex2mem
      refine ⟨⟨r, List.mem_append_left _ hr, hrid⟩, ?_⟩
      intro r2 hr2 hid2
      rcases List.mem_append.mp hr2 with hr2 | hr2
      · exact hfacts r2 hr2 hid2
      · rcases List.mem_singleton.mp hr2 with rfl
        exfalso
        have hid3 : ex2.id = some st.next_id := by
          simpa [insertedRow] using hid2.symm
        rw [hid3] at hex2below
        simp only [idBelow, decide_eq_true_eq] at hex2below
        have hnid : s₀.next_id ≤ st.next_id := inv.nid
        omega
  | some ex =>
    have happ : applyDetected (buildLookup (get_active_patterns 0 s₀)) st p =
        update_pattern
          { p with id := ex.id,
                   occurrence_count := max p.occurrence_count ex.occurrence_count,
                   first_seen := min p.first_seen ex.first_seen } st := by
      unfold applyDetected
      rw [hfind]
    obtain ⟨hexmem, hexact, hexconf, hexkey⟩ := lookup_mem hfind
    have hexbelow := h0.1 ex hexmem
    obtain ⟨i, hexid⟩ : ∃ i, ex.id = some i := by
      cases hh : ex.id with
      | none => rw [hh] at hexbelow; simp [idBelow] at hexbelow
      | some j => exact ⟨j, rfl⟩
    obtain ⟨⟨r₀, hr₀, hr₀id⟩, hfacts⟩ := inv.idfacts _ ex hfind
    set p' : DetectedPattern :=
      { p with id := ex.id,
               occurrence_count := max p.occurrence_count ex.occurrence_count,
               first_seen := min p.first_seen ex.first_seen } with hp'
    set f : DetectedPattern → DetectedPattern :=
      fun r => if r.id = some i then rowUpdate p' r else r with hf
    have hupd : update_pattern p' st = { st with rows := st.rows.map f } := by
      unfold update_pattern
      have hpid : p'.id = some i := by rw [hp']; exact hexid
      rw [hpid]
    rw [happ, hupd]
    have hfid : ∀ r, (f r).id = r.id := by
      intro r; rw [hf]; by_cases h : r.id = some i <;> simp [h, rowUpdate]
    have hfact : ∀ r, (f r).is_active = r.is_active := by
      intro r; rw [hf]; by_cases h : r.id = some i <;> simp [h, rowUpdate]
    have hfkey : ∀ r, patternKeyOf (f r) = patternKeyOf r := by
      intro r; rw [hf]; by_cases h : r.id = some i <;> simp [h, rowUpdate, patternKeyOf]
    have htarget : ∀ r ∈ st.rows, r.id = some i →
        patternKeyOf r = patternKeyOf p ∧ r.is_active = true ∧
          ex.occurrence_count ≤ r.occurrence_count := by
      intro r hr hid
      have := hfacts r hr (by rw [hid, hexid])
      exact ⟨this.1.trans hexkey, this.2.1, this.2.2⟩
    refine ⟨⟨?_, ?_⟩, inv.nid, ?_, ?_, ?_, ?_, ?_, ?_⟩
    · intro r hr
      obtain ⟨r1, hr1, rfl⟩ := List.mem_map.mp hr
      rw [show (f r1).id = r1.id from hfid r1]
      exact inv.wf.1 r1 hr1
    · rw [List.pairwise_map]
      refine inv.wf.2.imp ?_
      intro a b hab
      rw [hfid, hfid]
      exact hab
    · intro r hr
      obtain ⟨r1, hr1, rfl⟩ := List.mem_map.mp hr
      by_cases h : r1.id = some i
      · have : f r1 = rowUpdate p' r1 := by rw [hf]; simp [h]
        rw [this]
        exact hpc
      · have : f r1 = r1 := by rw [hf]; simp [h]
        rw [this]
        exact inv.conf_nonneg r1 hr1
    · intro r hr hact
      obtain ⟨r1, hr1, rfl⟩ := List.mem_map.mp hr
      rw [hfkey]
      rw [hfact] at hact
      rcases inv.keys_dom r1 hr1 hact with h | ⟨q, hq, hqk⟩
      · exact Or.inl h
      · exact Or.inr ⟨q, List.mem_append_left _ hq, hqk⟩
    · unfold activesKeyDistinct
      show ((st.rows.map f).filter (fun r => r.is_active)).Pairwise _
      rw [filter_map_comm _ _ _ (fun r => by rw [hfact])]
      rw [List.pairwise_map]
      refine inv.act_distinct.imp ?_
      intro a b hab
      rw [hfkey, hfkey]
      exact hab
    · intro q hq r hr hact hk
      obtain ⟨r1, hr1, rfl⟩ := List.mem_map.mp hr
      rw [hfact] at hact
      rw [hfkey] at hk
      rcases List.mem_append.mp hq with hq | hq
      · -- old processed pattern: its rows are untouched
        by_cases hid : r1.id = some i
        · exfalso
          have := (htarget r1 hr1 hid).1
          exact hpre q hq (hk.symm.trans this)
        · have : f r1 = r1 := by rw [hf]; simp [hid]
          rw [this]
          exact inv.fresh q hq r1 hr1 hact hk
      · rcases List.mem_singleton.mp hq with rfl
        by_cases hid : r1.id = some i
        · have : f r1 = rowUpdate p' r1 := by rw [hf]; simp [hid]
          rw [this]
          exact ⟨rfl, rfl, rfl, le_max_left _ _⟩
        · exfalso
          have hr₀facts := htarget r₀ hr₀ (by rw [hr₀id, hexid])
          have hne : r1 ≠ r₀ := by
            intro hcontra
            rw [hcontra] at hid
            exact hid (by rw [hr₀id, hexid])
          have := active_unique inv.act_distinct hr1 hr₀ hact hr₀facts.2.1
            (hk.trans hr₀facts.1.symm)
          exact hne this
    · intro q hq
      rcases List.mem_append.mp hq with hq | hq
      · obtain ⟨r, hr, hract, hrk⟩ := inv.covered q hq
        exact ⟨f r, List.mem_map_of_mem f hr, by rw [hfact]; exact hract,
          by rw [hfkey]; exact hrk⟩
      · rcases List.mem_singleton.mp hq with rfl
        have hr₀facts := htarget r₀ hr₀ (by rw [hr₀id, hexid])
        exact ⟨f r₀, List.mem_map_of_mem f hr₀, by rw [hfact]; exact hr₀facts.2.1,
          by rw [hfkey]; exact hr₀facts.1⟩
    · intro k2 ex2 hfind2
      obtain ⟨⟨r, hr, hrid⟩, hfacts2⟩ := inv.idfacts k2 ex2 hfind2
      obtain ⟨hex2mem, _, _, _⟩ := lookup_mem hfind2
      refine ⟨⟨f r, List.mem_map_of_mem f hr, by rw [hfid]; exact hrid⟩, ?_⟩
      intro r2 hr2 hid2
      obtain ⟨r1, hr1, rfl⟩ := List.mem_map.mp hr2
      rw [hfid] at hid2
      have hold := hfacts2 r1 hr1 hid2
      refine ⟨by rw [hfkey]; exact hold.1, by rw [hfact]; exact hold.2.1, ?_⟩
      by_cases hid : r1.id = some i
      · have hex2ex : ex2 = ex := by
          refine id_unique h0 hex2mem hexmem ?_
          rw [← hid2, hid, hexid]
        have : f r1 = rowUpdate p' r1 := by rw [hf]; simp [hid]
        rw [this]
        rw [hex2ex]
        exact le_max_right _ _
      · have : f r1 = r1 := by rw [hf]; simp [hid]
        rw [this]
        exact hold.2.2

theorem persistInv_fold {s₀ : PatternStore}
    (h0 : storeWF s₀) (h0c : ∀ r ∈ s₀.rows, 0 ≤ r.confidence) :
    ∀ (rest pre : List DetectedPattern) (st : PatternStore),
      PersistInv s₀ pre st →
      (pre ++ rest).Pairwise (fun a b => patternKeyOf a ≠ patternKeyOf b) →
      (∀ q ∈ rest, 0 ≤ q.confidence) →
      PersistInv s₀ (pre ++ rest)
        (persistLoop (buildLookup (get_active_patterns 0 s₀)) st rest)
  | [], pre, st, inv, _, _ => by simpa using inv
  | p :: rest2, pre, st, inv, hpw, hconf => by
    have hpre : ∀ q ∈ pre, patternKeyOf q ≠ patternKeyOf p := by
      intro q hq
      exact (List.pairwise_append.mp hpw).2.2 q hq p (List.mem_cons_self p rest2)
    have step := persistInv_step inv h0 h0c hpre (hconf p (List.mem_cons_self p rest2))
    have hpw2 : ((pre ++ [p]) ++ rest2).Pairwise
        (fun a b => patternKeyOf a ≠ patternKeyOf b) := by
      rw [List.append_assoc]
      exact hpw
    have hconf2 : ∀ q ∈ rest2, 0 ≤ q.confidence :=
      fun q hq => hconf q (List.mem_cons_of_mem p hq)
    have := persistInv_fold h0 h0c rest2 (pre ++ [p]) _ step hpw2 hconf2
    rw [List.append_assoc] at this
    exact this

/-- What one whole persist run establishes, starting from a well-formed
store whose active rows have distinct keys and nonnegative confidences,
given a detected list with pairwise-distinct keys. -/
theorem persist_patterns_summary {s₀ : PatternStore} {d : List DetectedPattern}
    (h1 : storeWF s₀) (h2 : ∀ r ∈ s₀.rows, 0 ≤ r.confidence)
    (h3 : activesKeyDistinct s₀)
    (hd : d.Pairwise (fun a b => patternKeyOf a ≠ patternKeyOf b))
    (hdc : ∀ q ∈ d, 0 ≤ q.confidence) :
    PersistInv s₀ d (persist_patterns d s₀) := by
  have := persistInv_fold h1 h2 d [] s₀ (persistInv_base h1 h2 h3)
    (by simpa using hd) hdc
  simpa [persist_patterns] using this

/-! ### Stability of a second persist run -/

/-- The row is unchanged in every column except last_seen (and updated_at,
which is not modelled). -/
def RowStable (r r2 : DetectedPattern) : Prop :=
  r2.id = r.id ∧ r2.pattern_type = r.pattern_type ∧ r2.entity_ids = r.entity_ids ∧
    r2.pattern_data = r.pattern_data ∧ r2.confidence = r.confidence ∧
    r2.occurrence_count = r.occurrence_count ∧ r2.first_seen = r.first_seen ∧
    r2.is_active = r.is_active

theorem rowStable_refl (r : DetectedPattern) : RowStable r r :=
  ⟨rfl, rfl, rfl, rfl, rfl, rfl, rfl, rfl⟩

theorem forall2_map_right {α β : Type} {R : α → β → Prop} {f : β → β} :
    ∀ {l₁ : List α} {l₂ : List β}, List.Forall₂ R l₁ l₂ →
      (∀ a b, a ∈ l₁ → R a b → R a (f b)) →
      List.Forall₂ R l₁ (l₂.map f)
  | [], [], _, _ => List.Forall₂.nil
  | a :: l₁, b :: l₂, h, hstep => by
    rcases h with _ | ⟨hab, hrest⟩
    exact List.Forall₂.cons (hstep a b (List.mem_cons_self a l₁) hab)
      (forall2_map_right hrest
        (fun a2 b2 ha2 => hstep a2 b2 (List.mem_cons_of_mem a ha2)))

theorem forall2_mem_right {α β : Type} {R : α → β → Prop} :
    ∀ {l₁ : List α} {l₂ : List β}, List.Forall₂ R l₁ l₂ →
      ∀ {b}, b ∈ l₂ → ∃ a ∈ l₁, R a b
  | [], [], _, b, hb => absurd hb (List.not_mem_nil b)
  | a :: l₁, c :: l₂, h, b, hb => by
    rcases h with _ | ⟨hab, hrest⟩
    rcases List.mem_cons.mp hb with rfl | hb
    · exact ⟨a, List.mem_cons_self a l₁, hab⟩
    · obtain ⟨a2, ha2, hr⟩ := forall2_mem_right hrest hb
      exact ⟨a2, List.mem_cons_of_mem a ha2, hr⟩

/-- The second persist run over patterns that all match an active stored row
carrying exactly their fresh data/confidence and at least their occurrence
count performs only in-place updates that change nothing but last_seen. -/
theorem persistLoop_stable {s₁ : PatternStore}
    (h1 : storeWF s₁) (h3 : activesKeyDistinct s₁) :
    ∀ (d : List DetectedPattern) (st : PatternStore),
      List.Forall₂ RowStable s₁.rows st.rows →
      (∀ p ∈ d, ∃ r ∈ s₁.rows, r.is_active = true ∧ 0 ≤ r.confidence ∧
        patternKeyOf r = patternKeyOf p ∧ r.pattern_data = p.pattern_data ∧
        r.confidence = p.confidence ∧ p.occurrence_count ≤ r.occurrence_count) →
      List.Forall₂ RowStable s₁.rows
        (persistLoop (buildLookup (get_active_patterns 0 s₁)) st d).rows
  | [], st, hstable, _ => hstable
  | p :: rest, st, hstable, hmatch => by
    obtain ⟨r, hr, hract, hrconf, hrk, hrdata, hrc, hro⟩ :=
      hmatch p (List.mem_cons_self p rest)
    -- the lookup resolves p's key
    cases hfind : assocFind (patternKeyOf p)
        (buildLookup (get_active_patterns 0 s₁)) with
    | none =>
      exfalso
      rw [← hrk] at hfind
      exact lookup_total hr hract hrconf hfind
    | some ex =>
      obtain ⟨hexmem, hexact, _, hexkey⟩ := lookup_mem hfind
      have hexr : ex = r := active_unique h3 hexmem hr hexact hract (hexkey.trans hrk.symm)
      have hexbelow := h1.1 ex hexmem
      obtain ⟨i, hexid⟩ : ∃ i, ex.id = some i := by
        cases hh : ex.id with
        | none => rw [hh] at hexbelow; simp [idBelow] at hexbelow
        | some j => exact ⟨j, rfl⟩
      set p' : DetectedPattern :=
        { p with id := ex.id,
                 occurrence_count := max p.occurrence_count ex.occurrence_count,
                 first_seen := min p.first_seen ex.first_seen } with hp'
      set f : DetectedPattern → DetectedPattern :=
        fun r2 => if r2.id = some i then rowUpdate p' r2 else r2 with hf
      have happ1 : applyDetected (buildLookup (get_active_patterns 0 s₁)) st p =
          update_pattern p' st := by
        unfold applyDetected
        rw [hfind]
      have hpid : p'.id = some i := by rw [hp']; exact hexid
      have happ2 : update_pattern p' st = { st with rows := st.rows.map f } := by
        unfold update_pattern
        rw [hpid]
      have happ := happ1.trans happ2
      have hstep : persistLoop (buildLookup (get_active_patterns 0 s₁)) st (p :: rest) =
          persistLoop (buildLookup (get_active_patterns 0 s₁))
            { st with rows := st.rows.map f } rest := by
        show persistLoop _ (applyDetected _ st p) rest = _
        rw [happ]
      rw [hstep]
      refine persistLoop_stable h1 h3 rest _ ?_
        (fun q hq => hmatch q (List.mem_cons_of_mem p hq))
      refine forall2_map_right hstable ?_
      intro a b ha hab
      by_cases hid : b.id = some i
      · have haid : a.id = some i := by rw [← hab.1]; exact hid
        have har : a = ex := by
          refine id_unique h1 ha hexmem ?_
          rw [haid, hexid]
        have hfb : f b = rowUpdate p' b := by rw [hf]; simp [hid]
        rw [hfb]
        refine ⟨hab.1, hab.2.1, hab.2.2.1, ?_, ?_, ?_, hab.2.2.2.2.2.2.1, hab.2.2.2.2.2.2.2⟩
        · show p'.pattern_data = a.pattern_data
          rw [har, hexr]
          exact hrdata.symm
        · show p'.confidence = a.confidence
          rw [har, hexr]
          exact hrc.symm
        · show p'.occurrence_count = a.occurrence_count
          have hoccle : p.occurrence_count ≤ ex.occurrence_count := by
            rw [hexr]; exact hro
          have hmax : p'.occurrence_count = ex.occurrence_count := by
            rw [hp']; exact max_eq_right hoccle
          rw [hmax, har]
      · have hfb : f b = b := by rw [hf]; simp [hid]
        rw [hfb]
        exact hab

theorem persist_again_stable {s₁ : PatternStore} {d : List DetectedPattern}
    (h1 : storeWF s₁) (h3 : activesKeyDistinct s₁)
    (hmatch : ∀ p ∈ d, ∃ r ∈ s₁.rows, r.is_active = true ∧ 0 ≤ r.confidence ∧
      patternKeyOf r = patternKeyOf p ∧ r.pattern_data = p.pattern_data ∧
      r.confidence = p.confidence ∧ p.occurrence_count ≤ r.occurrence_count) :
    List.Forall₂ RowStable s₁.rows (persist_patterns d s₁).rows := by
  have hrefl : List.Forall₂ RowStable s₁.rows s₁.rows :=
    List.forall₂_same.mpr (fun r _ => rowStable_refl r)
  exact persistLoop_stable h1 h3 d s₁ hrefl hmatch

/-! ### Determinism of detection across two runs on the same events -/

/-- Erase the two wall-clock-estimated fields of a sequential pattern. -/
def stripSeen (p : DetectedPattern) : DetectedPattern :=
  { p with first_seen := 0, last_seen := 0 }

theorem collectSeqPatterns_strip (sqrt : ℚ → ℚ) (now₁ now₂ : Nat) :
    ∀ seqs : List ((String × String × String × String) × List ℚ),
      (collectSeqPatterns sqrt now₁ seqs).map stripSeen =
        (collectSeqPatterns sqrt now₂ seqs).map stripSeen
  | [] => rfl
  | (k, delays) :: rest => by
    unfold collectSeqPatterns
    by_cases h : delays.length < MIN_SEQUENCE_OCCURRENCES
    · simp only [h, if_true]
      exact collectSeqPatterns_strip sqrt now₁ now₂ rest
    · simp only [h, if_false]
      rw [List.map_cons, List.map_cons, collectSeqPatterns_strip sqrt now₁ now₂ rest]
      have hhead : stripSeen (mkSeqPattern sqrt now₁ (k, delays).1 delays) =
          stripSeen (mkSeqPattern sqrt now₂ (k, delays).1 delays) := by
        simp [mkSeqPattern, stripSeen]
      rw [hhead]

theorem detect_sequential_patterns_strip (sqrt : ℚ → ℚ) (now₁ now₂ : Nat)
    (events : List DeviceEvent) :
    (detect_sequential_patterns sqrt now₁ events).map stripSeen =
      (detect_sequential_patterns sqrt now₂ events).map stripSeen := by
  unfold detect_sequential_patterns
  exact collectSeqPatterns_strip sqrt now₁ now₂ _

theorem forall2_of_map_eq {α β : Type} {f : α → β} :
    ∀ {l₁ l₂ : List α}, l₁.map f = l₂.map f →
      List.Forall₂ (fun a b => f a = f b) l₁ l₂
  | [], [], _ => List.Forall₂.nil
  | [], b :: l₂, h => by simp at h
  | a :: l₁, [], h => by simp at h
  | a :: l₁, b :: l₂, h => by
    rw [List.map_cons, List.map_cons] at h
    injection h with h1 h2
    exact List.Forall₂.cons h1 (forall2_of_map_eq h2)

theorem stripSeen_eq_facts {a b : DetectedPattern} (h : stripSeen a = stripSeen b) :
    patternKeyOf a = patternKeyOf b ∧ a.pattern_data = b.pattern_data ∧
      a.confidence = b.confidence ∧ a.occurrence_count = b.occurrence_count ∧
      a.id = b.id := by
  have ht := congrArg DetectedPattern.pattern_type h
  have he := congrArg DetectedPattern.entity_ids h
  have hd := congrArg DetectedPattern.pattern_data h
  have hc := congrArg DetectedPattern.confidence h
  have ho := congrArg DetectedPattern.occurrence_count h
  have hi := congrArg DetectedPattern.id h
  simp only [stripSeen] at ht he hd hc ho hi
  refine ⟨?_, hd, hc, ho, hi⟩
  unfold patternKeyOf
  rw [ht, he]

/-- The detection output of a second run over the same events agrees with
the first except for the wall-clock seen fields. -/
theorem detect_run_core_eq (sqrt : ℚ → ℚ) (now₁ now₂ : Nat)
    (events : List DeviceEvent) :
    List.Forall₂ (fun a b => stripSeen a = stripSeen b)
      (detect_time_patterns sqrt events ++ detect_sequential_patterns sqrt now₁ events)
      (detect_time_patterns sqrt events ++ detect_sequential_patterns sqrt now₂ events) := by
  refine List.rel_append ?_ ?_
  · exact List.forall₂_same.mpr (fun a _ => rfl)
  · exact forall2_of_map_eq (detect_sequential_patterns_strip sqrt now₁ now₂ events)

theorem detect_all_patterns_of_nonempty {sqrt : ℚ → ℚ} {now lookback_days : Nat}
    {es : List DeviceEvent} {s : PatternStore}
    (h : (get_events_in_range (now - lookback_days * microsPerDay) now es).isEmpty = false) :
    detect_all_patterns sqrt now lookback_days es s =
      (detect_time_patterns sqrt
          (get_events_in_range (now - lookback_days * microsPerDay) now es) ++
        detect_sequential_patterns sqrt now
          (get_events_in_range (now - lookback_days * microsPerDay) now es),
       persist_patterns
         (detect_time_patterns sqrt
             (get_events_in_range (now - lookback_days * microsPerDay) now es) ++
           detect_sequential_patterns sqrt now
             (get_events_in_range (now - lookback_days * microsPerDay) now es)) s) := by
  unfold detect_all_patterns
  simp [h]

theorem detect_all_patterns_of_empty {sqrt : ℚ → ℚ} {now lookback_days : Nat}
    {es : List DeviceEvent} {s : PatternStore}
    (h : (get_events_in_range (now - lookback_days * microsPerDay) now es).isEmpty = true) :
    detect_all_patterns sqrt now lookback_days es s = ([], s) := by
  unfold detect_all_patterns
  simp [h]

/-- C1 (amended): re-running detect_all_patterns on an unchanged stored
event window, starting from a well-formed store with nonnegative
confidences and key-distinct active rows, and with the freshly detected
patterns of the run carrying pairwise-distinct (entity-set, kind) keys,
leaves every stored pattern row unchanged in id, kind, entity set, pattern
data, confidence, occurrence count, first-seen and active flag (so in
particular occurrence counts and first-seen timestamps are equal across
the two runs, and only last_seen may move). -/
theorem detect_all_patterns_idempotent
    (sqrt : ℚ → ℚ) (es : List DeviceEvent) (now₁ now₂ : Nat) (s₀ : PatternStore)
    (hwindow : get_events_in_range (now₁ - 14 * microsPerDay) now₁ es =
      get_events_in_range (now₂ - 14 * microsPerDay) now₂ es)
    (h1 : storeWF s₀) (h2 : ∀ r ∈ s₀.rows, 0 ≤ r.confidence)
    (h3 : activesKeyDistinct s₀)
    (hkeys : (detect_all_patterns sqrt now₁ 14 es s₀).1.Pairwise
      (fun a b => patternKeyOf a ≠ patternKeyOf b)) :
    List.Forall₂ RowStable
      (detect_all_patterns sqrt now₁ 14 es s₀).2.rows
      (detect_all_patterns sqrt now₂ 14 es
        (detect_all_patterns sqrt now₁ 14 es s₀).2).2.rows := by
  cases hemp : (get_events_in_range (now₁ - 14 * microsPerDay) now₁ es).isEmpty with
  | true =>
    have hemp₂ : (get_events_in_range (now₂ - 14 * microsPerDay) now₂ es).isEmpty = true := by
      rw [← hwindow]; exact hemp
    rw [detect_all_patterns_of_empty hemp, detect_all_patterns_of_empty hemp₂]
    exact List.forall₂_same.mpr (fun r _ => rowStable_refl r)
  | false =>
    have hemp₂ : (get_events_in_range (now₂ - 14 * microsPerDay) now₂ es).isEmpty = false := by
      rw [← hwindow]; exact hemp
    have heq₁ := @detect_all_patterns_of_nonempty sqrt now₁ 14 es s₀ hemp
    rw [heq₁] at hkeys ⊢
    rw [detect_all_patterns_of_nonempty hemp₂]
    simp only at hkeys ⊢
    rw [← hwindow]
    set ev := get_events_in_range (now₁ - 14 * microsPerDay) now₁ es with hev
    set d₁ := detect_time_patterns sqrt ev ++ detect_sequential_patterns sqrt now₁ ev with hd₁
    set d₂ := detect_time_patterns sqrt ev ++ detect_sequential_patterns sqrt now₂ ev with hd₂
    have hconf₁ : ∀ q ∈ d₁, 0 ≤ q.confidence := by
      intro q hq
      rw [hd₁] at hq
      exact (detected_confidence_bounds hq).1
    have inv := persist_patterns_summary h1 h2 h3 hkeys hconf₁
    have hcore : List.Forall₂ (fun a b => stripSeen a = stripSeen b) d₁ d₂ := by
      rw [hd₁, hd₂]
      exact detect_run_core_eq sqrt now₁ now₂ ev
    have hmatch : ∀ p ∈ d₂, ∃ r ∈ (persist_patterns d₁ s₀).rows,
        r.is_active = true ∧ 0 ≤ r.confidence ∧
        patternKeyOf r = patternKeyOf p ∧ r.pattern_data = p.pattern_data ∧
        r.confidence = p.confidence ∧ p.occurrence_count ≤ r.occurrence_count := by
      intro p hp
      obtain ⟨p₁, hp₁, hstrip⟩ := forall2_mem_right hcore hp
      obtain ⟨hk, hdta, hcf, hoc, _⟩ := stripSeen_eq_facts hstrip
      obtain ⟨r, hr, hract, hrk⟩ := inv.covered p₁ hp₁
      obtain ⟨hrd, hrc, _, hro⟩ := inv.fresh p₁ hp₁ r hr hract hrk
      refine ⟨r, hr, hract, ?_, hrk.trans hk, hrd.trans hdta, hrc.trans hcf, ?_⟩
      · rw [hrc]; exact hconf₁ p₁ hp₁
      · rw [← hoc]; exact hro
    have hstable := persist_again_stable inv.wf inv.act_distinct hmatch
    exact hstable

/-! ### Update semantics of a single reconciliation step, and occurrence
monotonicity of whole runs -/

theorem persistLoop_occ_mono {s : PatternStore} (h1 : storeWF s) :
    ∀ (d : List DetectedPattern) (st : PatternStore),
      s.rows.length ≤ st.rows.length →
      List.Forall₂ (fun r r2 => r.id = r2.id ∧ r.occurrence_count ≤ r2.occurrence_count)
        s.rows (st.rows.take s.rows.length) →
      s.rows.length ≤
          (persistLoop (buildLookup (get_active_patterns 0 s)) st d).rows.length ∧
        List.Forall₂ (fun r r2 => r.id = r2.id ∧ r.occurrence_count ≤ r2.occurrence_count)
          s.rows
          ((persistLoop (buildLookup (get_active_patterns 0 s)) st d).rows.take
            s.rows.length)
  | [], st, hlen, hmono => ⟨hlen, hmono⟩
  | p :: rest, st, hlen, hmono => by
    cases hfind : assocFind (patternKeyOf p) (buildLookup (get_active_patterns 0 s)) with
    | none =>
      have happ : applyDetected (buildLookup (get_active_patterns 0 s)) st p =
          insert_pattern p st := by
        unfold applyDetected
        rw [hfind]
      have hstep : persistLoop (buildLookup (get_active_patterns 0 s)) st (p :: rest) =
          persistLoop (buildLookup (get_active_patterns 0 s)) (insert_pattern p st) rest := by
        show persistLoop _ (applyDetected _ st p) rest = _
        rw [happ]
      rw [hstep]
      refine persistLoop_occ_mono h1 rest (insert_pattern p st) ?_ ?_
      · show s.rows.length ≤ (st.rows ++ [insertedRow st.next_id p]).length
        rw [List.length_append]
        exact le_trans hlen (Nat.le_add_right _ _)
      · show List.Forall₂ _ s.rows ((st.rows ++ [insertedRow st.next_id p]).take s.rows.length)
        rw [List.take_append_of_le_length hlen]
        exact hmono
    | some ex =>
      obtain ⟨hexmem, _, _, _⟩ := lookup_mem hfind
      have hexbelow := h1.1 ex hexmem
      obtain ⟨i, hexid⟩ : ∃ i, ex.id = some i := by
        cases hh : ex.id with
        | none => rw [hh] at hexbelow; simp [idBelow] at hexbelow
        | some j => exact ⟨j, rfl⟩
      set p' : DetectedPattern :=
        { p with id := ex.id,
                 occurrence_count := max p.occurrence_count ex.occurrence_count,
                 first_seen := min p.first_seen ex.first_seen } with hp'
      set f : DetectedPattern → DetectedPattern :=
        fun r2 => if r2.id = some i then rowUpdate p' r2 else r2 with hf
      have happ1 : applyDetected (buildLookup (get_active_patterns 0 s)) st p =
          update_pattern p' st := by
        unfold applyDetected
        rw [hfind]
      have hpid : p'.id = some i := by rw [hp']; exact hexid
      have happ2 : update_pattern p' st = { st with rows := st.rows.map f } := by
        unfold update_pattern
        rw [hpid]
      have hstep : persistLoop (buildLookup (get_active_patterns 0 s)) st (p :: rest) =
          persistLoop (buildLookup (get_active_patterns 0 s))
            { st with rows := st.rows.map f } rest := by
        show persistLoop _ (applyDetected _ st p) rest = _
        rw [happ1.trans happ2]
      rw [hstep]
      refine persistLoop_occ_mono h1 rest _ ?_ ?_
      · show s.rows.length ≤ (st.rows.map f).length
        rw [List.length_map]
        exact hlen
      · show List.Forall₂ _ s.rows ((st.rows.map f).take s.rows.length)
        rw [← List.map_take]
        refine forall2_map_right hmono ?_
        intro a b ha hab
        by_cases hid : b.id = some i
        · have haid : a.id = some i := by rw [hab.1]; exact hid
          have hae : a = ex := by
            refine id_unique h1 ha hexmem ?_
            rw [haid, hexid]
          have hfb : f b = rowUpdate p' b := by rw [hf]; simp [hid]
          rw [hfb]
          refine ⟨hab.1, ?_⟩
          show a.occurrence_count ≤ p'.occurrence_count
          rw [hp']
          calc a.occurrence_count = ex.occurrence_count := by rw [hae]
            _ ≤ max p.occurrence_count ex.occurrence_count := le_max_right _ _
        · have hfb : f b = b := by rw [hf]; simp [hid]
          rw [hfb]
          exact hab

/-- C2 (amended) core: on a key match, the single reconciliation step
rewrites exactly the matched row, setting confidence, last_seen and
pattern_data to the fresh pattern and occurrence_count to the max, and
leaving first_seen (and everything else) as stored; on no match it inserts;
and over any run the occurrence count of a stored row never decreases. -/
theorem persist_patterns_update_semantics
    (s : PatternStore) (p : DetectedPattern)
    (h1 : storeWF s) (h2 : ∀ r ∈ s.rows, 0 ≤ r.confidence)
    (h3 : activesKeyDistinct s) :
    (∀ r₀ ∈ s.rows, r₀.is_active = true → patternKeyOf r₀ = patternKeyOf p →
      (persist_patterns [p] s).rows = s.rows.map (fun r =>
          if r.id = r₀.id then
            rowUpdate
              { p with occurrence_count := max p.occurrence_count r₀.occurrence_count } r
          else r) ∧
        (persist_patterns [p] s).next_id = s.next_id)
    ∧ ((∀ r ∈ s.rows, r.is_active = true → patternKeyOf r ≠ patternKeyOf p) →
      (persist_patterns [p] s).rows = s.rows ++ [insertedRow s.next_id p] ∧
        (persist_patterns [p] s).next_id = s.next_id + 1)
    ∧ ∀ d : List DetectedPattern,
        List.Forall₂ (fun r r2 => r.id = r2.id ∧ r.occurrence_count ≤ r2.occurrence_count)
          s.rows ((persist_patterns d s).rows.take s.rows.length) := by
  refine ⟨?_, ?_, ?_⟩
  · intro r₀ hr₀ hr₀act hr₀k
    cases hfind : assocFind (patternKeyOf p) (buildLookup (get_active_patterns 0 s)) with
    | none =>
      exfalso
      rw [← hr₀k] at hfind
      exact lookup_total hr₀ hr₀act (h2 r₀ hr₀) hfind
    | some ex =>
      obtain ⟨hexmem, hexact, _, hexkey⟩ := lookup_mem hfind
      have hexr : ex = r₀ :=
        active_unique h3 hexmem hr₀ hexact hr₀act (hexkey.trans hr₀k.symm)
      have hexbelow := h1.1 ex hexmem
      obtain ⟨i, hexid⟩ : ∃ i, ex.id = some i := by
        cases hh : ex.id with
        | none => rw [hh] at hexbelow; simp [idBelow] at hexbelow
        | some j => exact ⟨j, rfl⟩
      set p' : DetectedPattern :=
        { p with id := ex.id,
                 occurrence_count := max p.occurrence_count ex.occurrence_count,
                 first_seen := min p.first_seen ex.first_seen } with hp'
      have happ1 : persist_patterns [p] s = update_pattern p' s := by
        show applyDetected (buildLookup (get_active_patterns 0 s)) s p = _
        unfold applyDetected
        rw [hfind]
      have hpid : p'.id = some i := by rw [hp']; exact hexid
      have happ2 : update_pattern p' s =
          { s with rows :=
              s.rows.map (fun r => if r.id = some i then rowUpdate p' r else r) } := by
        unfold update_pattern
        rw [hpid]
      rw [happ1.trans happ2]
      refine ⟨?_, rfl⟩
      show s.rows.map _ = s.rows.map _
      refine List.map_congr_left ?_
      intro r hr
      by_cases h : r.id = r₀.id
      · have h2i : r.id = some i := by rw [h, ← hexr, hexid]
        rw [if_pos h2i, if_pos h]
        show rowUpdate p' r = _
        rw [hp', ← hexr]
        rfl
      · have h2i : ¬ r.id = some i := by
          intro hc
          apply h
          rw [hc, ← hexid, hexr]
        rw [if_neg h2i, if_neg h]
  · intro hnone
    have hfind : assocFind (patternKeyOf p) (buildLookup (get_active_patterns 0 s)) = none := by
      rw [buildLookup_none_iff]
      intro q hq
      obtain ⟨hqrow, hqact, _⟩ := mem_get_active.mp hq
      exact hnone q hqrow hqact
    have happ : persist_patterns [p] s = insert_pattern p s := by
      show applyDetected (buildLookup (get_active_patterns 0 s)) s p = _
      unfold applyDetected
      rw [hfind]
    rw [happ]
    exact ⟨rfl, rfl⟩
  · intro d
    have hrefl : List.Forall₂
        (fun r r2 => r.id = r2.id ∧ r.occurrence_count ≤ r2.occurrence_count)
        s.rows (s.rows.take s.rows.length) := by
      rw [List.take_length]
      exact List.forall₂_same.mpr (fun r _ => ⟨rfl, le_refl _⟩)
    exact (persistLoop_occ_mono h1 d s (le_refl _) hrefl).2

/-! ### Assorted helper lemmas for the remaining claims -/

theorem foldl_min_le_init : ∀ (l : List Nat) (acc : Nat), l.foldl min acc ≤ acc
  | [], acc => le_refl _
  | x :: xs, acc =>
    le_trans (foldl_min_le_init xs (min acc x)) (min_le_left _ _)

theorem foldl_min_le_mem : ∀ (l : List Nat) (acc x : Nat), x ∈ l → l.foldl min acc ≤ x
  | [], _, x, hx => absurd hx (List.not_mem_nil x)
  | y :: ys, acc, x, hx => by
    rcases List.mem_cons.mp hx with rfl | hx
    · exact le_trans (foldl_min_le_init ys (min acc x)) (min_le_right _ _)
    · exact foldl_min_le_mem ys (min acc y) x hx

theorem listMinD_le {l : List Nat} {x : Nat} (hx : x ∈ l) : listMinD l ≤ x := by
  cases l with
  | nil => exact absurd hx (List.not_mem_nil x)
  | cons y ys =>
    rcases List.mem_cons.mp hx with rfl | hx
    · exact foldl_min_le_init ys x
    · exact foldl_min_le_mem ys y x hx

theorem init_le_foldl_max : ∀ (l : List Nat) (acc : Nat), acc ≤ l.foldl max acc
  | [], acc => le_refl _
  | x :: xs, acc =>
    le_trans (le_max_left _ _) (init_le_foldl_max xs (max acc x))

theorem mem_le_foldl_max : ∀ (l : List Nat) (acc x : Nat), x ∈ l → x ≤ l.foldl max acc
  | [], _, x, hx => absurd hx (List.not_mem_nil x)
  | y :: ys, acc, x, hx => by
    rcases List.mem_cons.mp hx with rfl | hx
    · exact le_trans (le_max_right _ _) (init_le_foldl_max ys (max acc x))
    · exact mem_le_foldl_max ys (max acc y) x hx

theorem le_listMaxD {l : List Nat} {x : Nat} (hx : x ∈ l) : x ≤ listMaxD l := by
  cases l with
  | nil => exact absurd hx (List.not_mem_nil x)
  | cons y ys =>
    rcases List.mem_cons.mp hx with rfl | hx
    · exact init_le_foldl_max ys x
    · exact mem_le_foldl_max ys y x hx

theorem length_filter_split (p : α → Bool) :
    ∀ l : List α, (l.filter p).length + (l.filter (fun a => !(p a))).length = l.length
  | [] => rfl
  | a :: as => by
    have ih := length_filter_split p as
    cases hp : p a
    · rw [List.filter_cons, List.filter_cons, if_neg (by simp [hp]), if_pos (by simp [hp])]
      simp only [List.length_cons]
      omega
    · rw [List.filter_cons, List.filter_cons, if_pos (by simp [hp]), if_neg (by simp [hp])]
      simp only [List.length_cons]
      omega

theorem parseEntityHistory_sentinel (entity_id domain : String) :
    ∀ (prev : Option String) (h : List StateObj) (e : DeviceEvent),
      e ∈ parseEntityHistory entity_id domain prev h →
      e.new_state ≠ "unavailable" ∧ e.new_state ≠ "unknown" ∧ e.new_state ≠ ""
  | _, [], e, he => absurd he (List.not_mem_nil e)
  | prev, st :: rest, e, he => by
    unfold parseEntityHistory at he
    by_cases hsent : st.state = "unavailable" ∨ st.state = "unknown" ∨ st.state = ""
    · rw [if_pos hsent] at he
      exact parseEntityHistory_sentinel entity_id domain prev rest e he
    · rw [if_neg hsent] at he
      by_cases hprev : some st.state = prev
      · rw [if_pos hprev] at he
        exact parseEntityHistory_sentinel entity_id domain prev rest e he
      · rw [if_neg hprev] at he
        cases hlc : st.last_changed with
        | none =>
          rw [hlc] at he
          exact parseEntityHistory_sentinel entity_id domain prev rest e he
        | some ts =>
          rw [hlc] at he
          rcases List.mem_cons.mp he with rfl | he
          · push_neg at hsent
            exact hsent
          · exact parseEntityHistory_sentinel entity_id domain (some st.state) rest e he

theorem parse_history_data_sentinel :
    ∀ (hd : List (List StateObj)) (e : DeviceEvent), e ∈ parse_history_data hd →
      e.new_state ≠ "unavailable" ∧ e.new_state ≠ "unknown" ∧ e.new_state ≠ ""
  | [], e, he => absurd he (List.not_mem_nil e)
  | [] :: rest, e, he => parse_history_data_sentinel rest e he
  | (first :: hrest) :: rest, e, he => by
    change e ∈
      (if TRACKED_DOMAINS.contains (domainOf first.entity_id) = true then
        parseEntityHistory first.entity_id (domainOf first.entity_id) none
          (first :: hrest) ++ parse_history_data rest
      else parse_history_data rest) at he
    by_cases htrack : TRACKED_DOMAINS.contains (domainOf first.entity_id) = true
    · rw [if_pos htrack] at he
      rcases List.mem_append.mp he with he | he
      · exact parseEntityHistory_sentinel _ _ none (first :: hrest) e he
      · exact parse_history_data_sentinel rest e he
    · rw [if_neg htrack] at he
      exact parse_history_data_sentinel rest e he

/-- Any event already stored with the same dedup key protects the key: no
batch event with that key survives deduplication. -/
theorem deduplicate_drops {events stored : List DeviceEvent} {ex : DeviceEvent}
    (hex : ex ∈ stored) :
    ∀ e ∈ deduplicate_events events stored, dedupKey e ≠ dedupKey ex := by
  intro e he hkey
  unfold deduplicate_events at he
  by_cases hemp : events.isEmpty
  · rw [if_pos hemp] at he
    exact absurd he (List.not_mem_nil e)
  · rw [if_neg hemp] at he
    obtain ⟨hemem, hfilt⟩ := List.mem_filter.mp he
    rw [decide_eq_true_eq] at hfilt
    apply hfilt
    rw [hkey]
    -- the stored twin lies inside the padded window of the batch
    have hts1 : listMinD (events.map (fun e => e.timestamp)) ≤ e.timestamp :=
      listMinD_le (List.mem_map_of_mem _ hemem)
    have hts2 : e.timestamp ≤ listMaxD (events.map (fun e => e.timestamp)) :=
      le_listMaxD (List.mem_map_of_mem _ hemem)
    have hsec : e.timestamp / 1000000 = ex.timestamp / 1000000 := by
      have := congrArg (fun k => k.2.1) hkey
      simpa [dedupKey] using this
    have h1 := Nat.div_add_mod e.timestamp 1000000
    have h2 := Nat.div_add_mod ex.timestamp 1000000
    have h3 : e.timestamp % 1000000 < 1000000 := Nat.mod_lt _ (by norm_num)
    have h4 : ex.timestamp % 1000000 < 1000000 := Nat.mod_lt _ (by norm_num)
    have hexwin : ex ∈ get_events_in_range
        (listMinD (events.map (fun e => e.timestamp)) - 60000000)
        (listMaxD (events.map (fun e => e.timestamp)) + 60000000) stored := by
      refine mem_get_events_in_range.mpr ⟨hex, ?_, ?_⟩ <;> omega
    exact List.mem_map_of_mem dedupKey hexwin

/-- The consistent-day fold is the filter of the day groups through the
two-or-more-occurrences-and-variance-at-most-900 test, together with the
concatenation of the qualifying days' minute lists. -/
theorem consistentDaysFold_aux :
    ∀ (tbd : List (Nat × List ℚ)) (acc : List Nat × List ℚ),
      tbd.foldl
        (fun acc dl =>
          if 2 ≤ dl.2.length ∧ sampleVariance dl.2 ≤ 900 then
            (acc.1 ++ [dl.1], acc.2 ++ dl.2)
          else acc) acc =
      (acc.1 ++ ((tbd.filter
          (fun dl => decide (2 ≤ dl.2.length ∧ sampleVariance dl.2 ≤ 900))).map
            (fun dl => dl.1)),
        acc.2 ++ ((tbd.filter
          (fun dl => decide (2 ≤ dl.2.length ∧ sampleVariance dl.2 ≤ 900))).map
            (fun dl => dl.2)).flatten)
  | [], acc => by simp
  | dl :: rest, acc => by
    rw [List.foldl_cons]
    by_cases h : 2 ≤ dl.2.length ∧ sampleVariance dl.2 ≤ 900
    · rw [if_pos h, consistentDaysFold_aux rest _]
      rw [List.filter_cons, if_pos (by simpa using h)]
      simp [List.append_assoc]
    · rw [if_neg h, consistentDaysFold_aux rest _]
      rw [List.filter_cons, if_neg (by simpa using h)]

theorem consistentDaysFold_spec (tbd : List (Nat × List ℚ)) :
    consistentDaysFold tbd =
      (((tbd.filter
          (fun dl => decide (2 ≤ dl.2.length ∧ sampleVariance dl.2 ≤ 900))).map
            (fun dl => dl.1)),
        ((tbd.filter
          (fun dl => decide (2 ≤ dl.2.length ∧ sampleVariance dl.2 ≤ 900))).map
            (fun dl => dl.2)).flatten) := by
  unfold consistentDaysFold
  rw [consistentDaysFold_aux]
  simp

/-- The suggestion built from a pattern carries the pattern's id,
confidence and occurrence count. -/
theorem pattern_to_suggestion_fields {cache : Option (String → Option String)}
    {p : DetectedPattern} {sugg : PatternSuggestion}
    (h : pattern_to_suggestion cache p = some sugg) :
    p.id = some sugg.pattern_id ∧ sugg.confidence = p.confidence ∧
      sugg.occurrence_count = p.occurrence_count := by
  unfold pattern_to_suggestion at h
  cases htype : p.pattern_type with
  | time_based =>
    rw [htype] at h
    unfold time_pattern_to_suggestion at h
    cases hid : p.id with
    | none => rw [hid] at h; exact absurd h (by simp)
    | some pid =>
      rw [hid] at h
      simp only at h
      rw [← Option.some_inj.mp h]
      exact ⟨rfl, rfl, rfl⟩
  | sequential =>
    rw [htype] at h
    unfold sequential_pattern_to_suggestion at h
    cases hid : p.id with
    | none => rw [hid] at h; exact absurd h (by simp)
    | some pid =>
      rw [hid] at h
      simp only at h
      cases hseq : dataSequence p.pattern_data with
      | nil => rw [hseq] at h; exact absurd h (by simp)
      | cons trigger rest1 =>
        cases hrest : rest1 with
        | nil => rw [hseq, hrest] at h; exact absurd h (by simp)
        | cons action rest2 =>
          rw [hseq, hrest] at h
          simp only at h
          rw [← Option.some_inj.mp h]
          exact ⟨rfl, rfl, rfl⟩

theorem suggestionOrder_total (a b : PatternSuggestion) :
    suggestionOrder a b = true ∨ suggestionOrder b a = true := by
  simp only [suggestionOrder, Bool.or_eq_true, Bool.and_eq_true, decide_eq_true_eq]
  rcases lt_trichotomy a.confidence b.confidence with h | h | h
  · exact Or.inr (Or.inl h)
  · rcases Nat.le_total b.occurrence_count a.occurrence_count with h2 | h2
    · exact Or.inl (Or.inr ⟨h, h2⟩)
    · exact Or.inr (Or.inr ⟨h.symm, h2⟩)
  · exact Or.inl (Or.inl h)

theorem suggestionOrder_trans (a b c : PatternSuggestion)
    (h1 : suggestionOrder a b = true) (h2 : suggestionOrder b c = true) :
    suggestionOrder a c = true := by
  simp only [suggestionOrder, Bool.or_eq_true, Bool.and_eq_true, decide_eq_true_eq] at h1 h2 ⊢
  rcases h1 with h1 | ⟨h1e, h1o⟩
  · rcases h2 with h2 | ⟨h2e, h2o⟩
    · exact Or.inl (lt_trans h2 h1)
    · exact Or.inl (h2e ▸ h1)
  · rcases h2 with h2 | ⟨h2e, h2o⟩
    · exact Or.inl (by rw [h1e]; exact h2)
    · exact Or.inr ⟨h1e.trans h2e, le_trans h2o h1o⟩

/-! ### Claim theorems -/

/-- C3: every confidence value computed by the time-based and the
sequential detection algorithm lies in [0, 1], whatever the occurrence
counts, standard deviations and mean delays of the input events, and hence
every pattern either algorithm returns carries a confidence in [0, 1]. -/
theorem confidence_in_unit_interval :
    (∀ (n : Nat) (stdev : ℚ),
      0 ≤ timeConfidence n stdev ∧ timeConfidence n stdev ≤ 1)
    ∧ (∀ (n : Nat) (stdev mean_delay : ℚ),
      0 ≤ seqConfidence n stdev mean_delay ∧ seqConfidence n stdev mean_delay ≤ 1)
    ∧ (∀ (sqrt : ℚ → ℚ) (events : List DeviceEvent) (p : DetectedPattern),
      p ∈ detect_time_patterns sqrt events → 0 ≤ p.confidence ∧ p.confidence ≤ 1)
    ∧ (∀ (sqrt : ℚ → ℚ) (now : Nat) (events : List DeviceEvent) (p : DetectedPattern),
      p ∈ detect_sequential_patterns sqrt now events →
        0 ≤ p.confidence ∧ p.confidence ≤ 1) := by
  refine ⟨timeConfidence_bounds, seqConfidence_bounds, ?_, ?_⟩
  · intro sqrt events p hp
    obtain ⟨n, v, hc⟩ := detect_time_patterns_confidence hp
    rw [hc]
    exact timeConfidence_bounds n v
  · intro sqrt now events p hp
    obtain ⟨n, sd, ad, hc⟩ := detect_sequential_patterns_confidence hp
    rw [hc]
    exact seqConfidence_bounds n sd ad

/-- C4 (amended): the history-sync parse path never produces an event in a
sentinel state ("unavailable"/"unknown"/empty), but record_assistant_event
performs no such filtering: it appends an event carrying the caller's
new_state verbatim. -/
theorem ingestion_sentinel_filtering :
    (∀ (history_data : List (List StateObj)) (e : DeviceEvent),
      e ∈ parse_history_data history_data →
      e.new_state ≠ "unavailable" ∧ e.new_state ≠ "unknown" ∧ e.new_state ≠ "")
    ∧ (∀ (entity_id : String) (old_state : Option String) (new_state : String)
        (attributes : List (String × String)) (now : Nat) (s : EventStore),
      (record_assistant_event entity_id old_state new_state attributes now s).events =
        s.events ++
          [{ entity_id := entity_id, domain := domainOf entity_id,
             old_state := old_state, new_state := new_state, timestamp := now,
             source := .assistant, context_user_id := none,
             context_parent_id := none, attributes := attributes }]) := by
  constructor
  · exact parse_history_data_sentinel
  · intro entity_id old_state new_state attributes now s
    rfl

/-- C5 (amended): a fetch failure is caught at the collector boundary and
returned as (0, message); the error is recorded in the sync-metadata row —
but that write also overwrites last_sync_timestamp with the failure time,
so the next run computes its overlap window from the failure time minus
five minutes, not from the previous (stale) sync timestamp. -/
theorem sync_failure_semantics (hours_back : Nat) (entity_ids : List String)
    (fetch : Nat → Nat → Except String (List (List StateObj))) (now : Nat)
    (s : EventStore) (msg : String)
    (hne : entity_ids.isEmpty = false)
    (hfail : fetch (syncWindow hours_back s.meta.last_sync_timestamp now).1
      (syncWindow hours_back s.meta.last_sync_timestamp now).2 = Except.error msg) :
    sync_from_history_api hours_back entity_ids fetch now s =
      ((0, some msg),
        { s with meta :=
            { last_sync_timestamp := some now, last_sync_entity_count := 0,
              sync_duration_ms := 0, error_message := some msg } }) := by
  unfold sync_from_history_api
  rw [hne]
  simp only [Bool.false_eq_true, if_false]
  rw [hfail]
  rfl

/-- Number of stored events carrying a given dedup key. -/
def countKey (k : String × Nat × String) (l : List DeviceEvent) : Nat :=
  (l.filter (fun e => decide (dedupKey e = k))).length

/-- C6: an event already stored with a given dedup key (entity id,
timestamp truncated to the second, new state) protects that key: a later
sync run that fetches events with the same key discards them before
insert, so the number of stored events with that key does not change. -/
theorem sync_dedup_no_duplicates (hours_back : Nat) (entity_ids : List String)
    (fetch : Nat → Nat → Except String (List (List StateObj))) (now : Nat)
    (s : EventStore) (k : String × Nat × String)
    (hex : ∃ ex ∈ s.events, dedupKey ex = k) :
    countKey k (sync_from_history_api hours_back entity_ids fetch now s).2.events =
      countKey k s.events := by
  obtain ⟨ex, hexmem, hexkey⟩ := hex
  unfold sync_from_history_api
  by_cases hemp : entity_ids.isEmpty
  · rw [hemp]
    rfl
  · rw [Bool.not_eq_true] at hemp
    rw [hemp]
    simp only [Bool.false_eq_true, if_false]
    cases hfetch : fetch (syncWindow hours_back s.meta.last_sync_timestamp now).1
        (syncWindow hours_back s.meta.last_sync_timestamp now).2 with
    | error e => rfl
    | ok history_data =>
      show countKey k (s.events ++
        deduplicate_events (parse_history_data history_data) s.events) = countKey k s.events
      unfold countKey
      rw [List.filter_append, List.length_append]
      have hzero : (deduplicate_events (parse_history_data history_data) s.events).filter
          (fun e => decide (dedupKey e = k)) = [] := by
        rw [List.filter_eq_nil_iff]
        intro e he
        rw [decide_eq_true_eq]
        intro hk
        exact deduplicate_drops hexmem e he (hk.trans hexkey.symm)
      rw [hzero]
      rfl

/-- C7: cleanup_old_events retains exactly the stored events with timestamp
at or after the cutoff (current time minus the retention days), deletes the
strictly older ones, and returns the number deleted. -/
theorem cleanup_old_events_spec (days now : Nat) (s : EventStore) :
    (∀ e : DeviceEvent, e ∈ (cleanup_old_events days now s).2.events ↔
      e ∈ s.events ∧ now - days * microsPerDay ≤ e.timestamp)
    ∧ (cleanup_old_events days now s).1 + (cleanup_old_events days now s).2.events.length
        = s.events.length := by
  constructor
  · intro e
    show e ∈ s.events.filter (fun e => decide (¬ e.timestamp < now - days * microsPerDay)) ↔ _
    rw [List.mem_filter, decide_eq_true_eq, Nat.not_lt]
  · show (s.events.filter (fun e => decide (e.timestamp < now - days * microsPerDay))).length
        + (s.events.filter (fun e => decide (¬ e.timestamp < now - days * microsPerDay))).length
        = s.events.length
    have hfun : (fun e : DeviceEvent => decide (¬ e.timestamp < now - days * microsPerDay)) =
        (fun e : DeviceEvent => !(decide (e.timestamp < now - days * microsPerDay))) := by
      funext e
      rw [decide_not]
    rw [hfun]
    exact length_filter_split _ s.events

/-- C8 (amended): in analyze_time_pattern a day-of-week qualifies as
consistent exactly when it has at least two occurrences and the sample
standard deviation of its minute-of-day values is at most 30 (variance at
most 900); the minutes of all qualifying days are aggregated in order, and
the function returns no pattern precisely when no day qualifies or the
aggregate count is below three. -/
theorem analyze_time_pattern_day_qualification (sqrt : ℚ → ℚ)
    (entity_id action : String) (events : List DeviceEvent) :
    (consistentDaysFold (timesByDay events)).1 =
      ((timesByDay events).filter
        (fun dl => decide (2 ≤ dl.2.length ∧ sampleVariance dl.2 ≤ 900))).map
          (fun dl => dl.1)
    ∧ (consistentDaysFold (timesByDay events)).2 =
      (((timesByDay events).filter
        (fun dl => decide (2 ≤ dl.2.length ∧ sampleVariance dl.2 ≤ 900))).map
          (fun dl => dl.2)).flatten
    ∧ (analyze_time_pattern sqrt entity_id action events = none ↔
        (consistentDaysFold (timesByDay events)).1 = [] ∨
          (consistentDaysFold (timesByDay events)).2.length < 3) := by
  refine ⟨?_, ?_, ?_⟩
  · rw [consistentDaysFold_spec]
  · rw [consistentDaysFold_spec]
  · unfold analyze_time_pattern
    by_cases hcond : (consistentDaysFold (timesByDay events)).1.isEmpty = true ∨
        (consistentDaysFold (timesByDay events)).2.length < MIN_TIME_OCCURRENCES
    · simp only [hcond, if_true, true_iff]
      rcases hcond with hcond | hcond
      · exact Or.inl (List.isEmpty_iff.mp hcond)
      · exact Or.inr hcond
    · simp only [hcond, if_false]
      constructor
      · intro hsome
        exact absurd hsome (by simp)
      · intro habs
        exfalso
        apply hcond
        rcases habs with habs | habs
        · exact Or.inl (by rw [habs]; rfl)
        · exact Or.inr habs

/-- C9: generated suggestions come only from stored active patterns at or
above the confidence floor whose id carries no "dismissed" preference
record, each suggestion carries its pattern's confidence and occurrence
count, the output is sorted by confidence descending then occurrence count
descending, and at most max_suggestions are returned. -/
theorem generate_suggestions_spec (cache : Option (String → Option String))
    (min_confidence : ℚ) (max_suggestions : Nat) (s : PatternStore) :
    (∀ sugg ∈ generate_suggestions cache min_confidence max_suggestions s,
      ∃ p ∈ s.rows, p.is_active = true ∧ min_confidence ≤ p.confidence ∧
        p.id = some sugg.pattern_id ∧ sugg.confidence = p.confidence ∧
        sugg.occurrence_count = p.occurrence_count ∧
        ¬ sugg.pattern_id ∈ get_dismissed_pattern_ids s)
    ∧ (generate_suggestions cache min_confidence max_suggestions s).Pairwise
        (fun a b => suggestionOrder a b = true)
    ∧ (generate_suggestions cache min_confidence max_suggestions s).length
        ≤ max_suggestions := by
  refine ⟨?_, ?_, ?_⟩
  · intro sugg hsugg
    unfold generate_suggestions at hsugg
    have hsort := List.mem_of_mem_take hsugg
    rw [mem_sortBy] at hsort
    obtain ⟨p, hp, hps⟩ := List.mem_filterMap.mp hsort
    obtain ⟨hpact, hpdism⟩ := List.mem_filter.mp hp
    obtain ⟨hprow, hpactive, hpconf⟩ := mem_get_active.mp hpact
    obtain ⟨hpid, hsc, hso⟩ := pattern_to_suggestion_fields hps
    rw [decide_eq_true_eq] at hpdism
    refine ⟨p, hprow, hpactive, hpconf, hpid, hsc, hso, ?_⟩
    intro hmem
    exact hpdism (by rw [hpid]; exact List.mem_map_of_mem some hmem)
  · unfold generate_suggestions
    refine List.Pairwise.sublist (List.take_sublist _ _) ?_
    exact pairwise_sortBy suggestionOrder suggestionOrder_total suggestionOrder_trans _
  · unfold generate_suggestions
    exact le_trans (List.length_take_le _ _) (le_refl _)

/-- C10: the hours_back parameter of sync_from_history_api has no effect:
the fetch window is determined solely by the stored last-sync timestamp
(minus five minutes) or the seven-day bootstrap window, and the whole sync
outcome is identical for any two values of hours_back. -/
theorem sync_hours_back_irrelevant :
    (∀ (hb₁ hb₂ : Nat) (last_sync : Option Nat) (now : Nat),
      syncWindow hb₁ last_sync now = syncWindow hb₂ last_sync now)
    ∧ (∀ (hb₁ hb₂ : Nat) (entity_ids : List String)
        (fetch : Nat → Nat → Except String (List (List StateObj))) (now : Nat)
        (s : EventStore),
      sync_from_history_api hb₁ entity_ids fetch now s =
        sync_from_history_api hb₂ entity_ids fetch now s) := by
  constructor
  · intro hb₁ hb₂ last_sync now
    cases last_sync <;> rfl
  · intro hb₁ hb₂ entity_ids fetch now s
    unfold sync_from_history_api syncWindow
    cases s.meta.last_sync_timestamp <;> rfl

instance (s : PatternStore) : Decidable (storeWF s) := by
  unfold storeWF
  infer_instance

instance (s : PatternStore) : Decidable (activesKeyDistinct s) := by
  unfold activesKeyDistinct
  infer_instance

/-! ### Concrete scenarios: counterexamples and witnesses -/

def mkC1Ev (ts : Nat) (st : String) : DeviceEvent :=
  { entity_id := "light.x", domain := "light", new_state := st, timestamp := ts }

/-- Seven events of one entity on 1970-01-02 (a Friday): three "on"
transitions around 18:00 and four "off" transitions around 19:00. Both
groups yield a time pattern with the same merge key ([light.x], time). -/
def c1Events : List DeviceEvent :=
  [mkC1Ev 151200000000 "on", mkC1Ev 151201000000 "on", mkC1Ev 151202000000 "on",
   mkC1Ev 154800000000 "off", mkC1Ev 154801000000 "off", mkC1Ev 154802000000 "off",
   mkC1Ev 154803000000 "off"]

def c1Now₁ : Nat := 172800000000

def c1Now₂ : Nat := 176400000000

def c1EmptyStore : PatternStore := { rows := [], prefs := [], next_id := 0 }

def c1S1 : PatternStore := (detect_all_patterns ratSqrt c1Now₁ 14 c1Events c1EmptyStore).2

def c1S2 : PatternStore := (detect_all_patterns ratSqrt c1Now₂ 14 c1Events c1S1).2

def patternDataAction : PatternData → Option String
  | .time _ _ _ a _ _ => some a
  | .seq _ _ _ => none

/-- C1 counterexample: on an unchanged event window (both runs see the
same seven events), the first run stores one pattern whose data has action
"on", and after the second run no stored pattern has action "on" any more:
the pattern set (keys with their kind-specific data) is not preserved. The
two detected patterns of a run share the merge key ([light.x], time), both
updates of the second run land on the same row, and the "on" data is
overwritten. -/
theorem detect_all_rerun_changes_pattern_set_cex :
    get_events_in_range (c1Now₁ - 14 * microsPerDay) c1Now₁ c1Events =
      get_events_in_range (c1Now₂ - 14 * microsPerDay) c1Now₂ c1Events
    ∧ (c1S1.rows.filter
        (fun r => decide (patternDataAction r.pattern_data = some "on"))).length = 1
    ∧ (c1S2.rows.filter
        (fun r => decide (patternDataAction r.pattern_data = some "on"))).length = 0 := by
  refine ⟨?_, ?_, ?_⟩
  · with_unfolding_all rfl
  · with_unfolding_all rfl
  · with_unfolding_all rfl

def c1wEvents : List DeviceEvent :=
  [mkC1Ev 151200000000 "on", mkC1Ev 151201000000 "on", mkC1Ev 151202000000 "on"]

def c1wS1 : PatternStore := (detect_all_patterns ratSqrt c1Now₁ 14 c1wEvents c1EmptyStore).2

def c1wS2 : PatternStore := (detect_all_patterns ratSqrt c1Now₂ 14 c1wEvents c1wS1).2

/-- C1 witness: the idempotence theorem applied to a concrete one-pattern
scenario. -/
theorem detect_all_patterns_idempotent_witness :
    List.Forall₂ RowStable c1wS1.rows c1wS2.rows := by
  have h := detect_all_patterns_idempotent ratSqrt c1wEvents c1Now₁ c1Now₂ c1EmptyStore
    (by with_unfolding_all rfl)
    (of_decide_eq_true (by with_unfolding_all rfl))
    (fun r hr => absurd hr (List.not_mem_nil r))
    (of_decide_eq_true (by with_unfolding_all rfl))
    (of_decide_eq_true (by with_unfolding_all rfl))
  exact h

def c2Row : DetectedPattern :=
  { id := some 0, pattern_type := .time_based, entity_ids := ["light.x"],
    pattern_data := .time "17:30" "18:30" [4] "on" "18:00" 0, confidence := 1/2,
    occurrence_count := 3, first_seen := 100, last_seen := 200 }

def c2Store : PatternStore := { rows := [c2Row], prefs := [], next_id := 1 }

def c2New : DetectedPattern :=
  { id := none, pattern_type := .time_based, entity_ids := ["light.x"],
    pattern_data := .time "17:00" "18:00" [4] "on" "17:30" 0, confidence := 3/5,
    occurrence_count := 4, first_seen := 50, last_seen := 300 }

/-- C2 counterexample: reconciling a fresh pattern (first seen 50) against
a stored active pattern with the same key (first seen 100) leaves the
persisted first-seen at 100, although min(new, existing) = 50: the UPDATE
statement of update_pattern does not write the first_seen column. The
persisted occurrence count does become max(4, 3) = 4, showing the row was
updated. -/
theorem update_pattern_keeps_first_seen_cex :
    ((persist_patterns [c2New] c2Store).rows.map
      (fun r => (r.first_seen, r.occurrence_count))) = [(100, 4)]
    ∧ min c2New.first_seen c2Row.first_seen = 50
    ∧ (100 : Nat) ≠ 50 := by
  refine ⟨by with_unfolding_all rfl, by decide, by decide⟩

/-- C2 witness: the update-semantics theorem applied to the concrete
one-row store. -/
theorem persist_patterns_update_semantics_witness :
    (persist_patterns [c2New] c2Store).rows = c2Store.rows.map (fun r =>
        if r.id = c2Row.id then
          rowUpdate
            { c2New with occurrence_count := max c2New.occurrence_count c2Row.occurrence_count } r
        else r)
    ∧ (persist_patterns [c2New] c2Store).next_id = c2Store.next_id := by
  have h := (persist_patterns_update_semantics c2Store c2New
    (of_decide_eq_true (by with_unfolding_all rfl))
    (of_decide_eq_true (by with_unfolding_all rfl))
    (of_decide_eq_true (by with_unfolding_all rfl))).1 c2Row
    (List.mem_singleton_self c2Row) rfl (by with_unfolding_all rfl)
  exact h

def cDefaultPattern : DetectedPattern :=
  { pattern_type := .time_based, entity_ids := [], pattern_data := .seq [] 0 0,
    confidence := 0, first_seen := 0, last_seen := 0 }

def c3SeqEvents : List DeviceEvent :=
  [{ entity_id := "lock.front_door", domain := "lock", new_state := "unlocked",
     timestamp := 1000000000000 },
   { entity_id := "light.hallway", domain := "light", new_state := "on",
     timestamp := 1000040000000 },
   { entity_id := "lock.front_door", domain := "lock", new_state := "unlocked",
     timestamp := 1086400000000 },
   { entity_id := "light.hallway", domain := "light", new_state := "on",
     timestamp := 1086450000000 }]

def c3SeqP : DetectedPattern :=
  (detect_sequential_patterns ratSqrt 0 c3SeqEvents).headD cDefaultPattern

def c3TimeP : DetectedPattern :=
  (detect_time_patterns ratSqrt c1wEvents).headD cDefaultPattern

set_option maxRecDepth 2000 in
/-- C3 witness: the bounds at concrete arguments and at the concrete
patterns produced by both algorithms. -/
theorem confidence_in_unit_interval_witness :
    (0 ≤ timeConfidence 6 (7/2) ∧ timeConfidence 6 (7/2) ≤ 1)
    ∧ (0 ≤ seqConfidence 2 7 45 ∧ seqConfidence 2 7 45 ≤ 1)
    ∧ (0 ≤ c3TimeP.confidence ∧ c3TimeP.confidence ≤ 1)
    ∧ (0 ≤ c3SeqP.confidence ∧ c3SeqP.confidence ≤ 1) := by
  have hT : detect_time_patterns ratSqrt c1wEvents = [c3TimeP] := by
    with_unfolding_all rfl
  have hS : detect_sequential_patterns ratSqrt 0 c3SeqEvents = [c3SeqP] := by
    with_unfolding_all rfl
  exact ⟨confidence_in_unit_interval.1 6 (7/2),
   confidence_in_unit_interval.2.1 2 7 45,
   confidence_in_unit_interval.2.2.1 ratSqrt c1wEvents c3TimeP
     (hT.symm ▸ List.mem_singleton_self c3TimeP),
   confidence_in_unit_interval.2.2.2 ratSqrt 0 c3SeqEvents c3SeqP
     (hS.symm ▸ List.mem_singleton_self c3SeqP)⟩

def cEmptyEventStore : EventStore := { events := [], meta := {} }

/-- C4 counterexample: record_assistant_event persists an event whose new
state is the sentinel "unavailable" verbatim — the local assistant-event
ingestion path performs no sentinel filtering. -/
theorem record_assistant_event_stores_sentinel_cex :
    ((record_assistant_event "light.bedroom" (some "on") "unavailable" [] 1000
        cEmptyEventStore).events.map (fun e => e.new_state)) = ["unavailable"] := rfl

def c4History : List (List StateObj) :=
  [[{ entity_id := "light.room", state := "on", last_changed := some 42000000 }]]

def c4Event : DeviceEvent :=
  (parse_history_data c4History).headD
    { entity_id := "", domain := "", new_state := "", timestamp := 0 }

/-- C4 witness: the amended theorem at a concrete parsed history batch and
a concrete recorded assistant event. -/
theorem ingestion_sentinel_filtering_witness :
    (c4Event.new_state ≠ "unavailable" ∧ c4Event.new_state ≠ "unknown" ∧
      c4Event.new_state ≠ "")
    ∧ (record_assistant_event "light.bedroom" (some "off") "on" [] 7
        cEmptyEventStore).events =
      [] ++ [{ entity_id := "light.bedroom", domain := domainOf "light.bedroom",
               old_state := some "off", new_state := "on", timestamp := 7,
               source := .assistant, context_user_id := none,
               context_parent_id := none, attributes := [] }] :=
  ⟨ingestion_sentinel_filtering.1 c4History c4Event
      (by
        have h : parse_history_data c4History = [c4Event] := by with_unfolding_all rfl
        rw [h]
        exact List.mem_singleton_self c4Event),
   ingestion_sentinel_filtering.2 "light.bedroom" (some "off") "on" [] 7 cEmptyEventStore⟩

def c5Store : EventStore := { events := [], meta := { last_sync_timestamp := some 1000000 } }

/-- C5 counterexample: a failing fetch rewrites the stored last-sync
timestamp to the failure time (9000000) instead of leaving the previous
value (1000000) unchanged. -/
theorem sync_failure_overwrites_last_sync_cex :
    c5Store.meta.last_sync_timestamp = some 1000000
    ∧ (sync_from_history_api 24 ["light.x"]
        (fun _ _ => Except.error "connect timeout") 9000000 c5Store).2.meta.last_sync_timestamp
        = some 9000000
    ∧ some (9000000 : Nat) ≠ some (1000000 : Nat) := by
  refine ⟨rfl, rfl, by decide⟩

/-- C5 witness: the failure-semantics theorem at a concrete failing fetch. -/
theorem sync_failure_semantics_witness :
    sync_from_history_api 24 ["light.x"] (fun _ _ => Except.error "boom") 9000000 c5Store =
      ((0, some "boom"),
        { c5Store with meta :=
            { last_sync_timestamp := some 9000000, last_sync_entity_count := 0,
              sync_duration_ms := 0, error_message := some "boom" } }) :=
  sync_failure_semantics 24 ["light.x"] (fun _ _ => Except.error "boom") 9000000 c5Store
    "boom" rfl rfl

def c6Stored : DeviceEvent :=
  { entity_id := "light.x", domain := "light", new_state := "on", timestamp := 1000500000 }

def c6Store : EventStore :=
  { events := [c6Stored], meta := { last_sync_timestamp := some 1000500000 } }

def c6Fetch : Nat → Nat → Except String (List (List StateObj)) :=
  fun _ _ => Except.ok [[{ entity_id := "light.x", state := "on", last_changed := some 1000250000 }]]

/-- C6 witness: re-syncing an already-stored event (same entity, same
whole second, same state, different microseconds) leaves exactly one
stored event with that key. -/
theorem sync_dedup_no_duplicates_witness :
    countKey ("light.x", 1000, "on")
      (sync_from_history_api 24 ["light.x"] c6Fetch 2000000000 c6Store).2.events =
      countKey ("light.x", 1000, "on") c6Store.events
    ∧ countKey ("light.x", 1000, "on") c6Store.events = 1 :=
  ⟨sync_dedup_no_duplicates 24 ["light.x"] c6Fetch 2000000000 c6Store
      ("light.x", 1000, "on") ⟨c6Stored, by decide, by decide⟩,
   by decide⟩

def c7Old : DeviceEvent :=
  { entity_id := "light.x", domain := "light", new_state := "on", timestamp := 863999999999 }

def c7Boundary : DeviceEvent :=
  { entity_id := "light.x", domain := "light", new_state := "on", timestamp := 864000000000 }

def c7Store : EventStore := { events := [c7Old, c7Boundary], meta := {} }

def c7Now : Nat := 3456000000000

/-- C7 witness: with the cutoff at exactly the boundary event's timestamp,
the boundary event is retained by cleanup. -/
theorem cleanup_old_events_spec_witness :
    c7Boundary ∈ (cleanup_old_events 30 c7Now c7Store).2.events :=
  ((cleanup_old_events_spec 30 c7Now c7Store).1 c7Boundary).mpr ⟨by decide, by decide⟩

/-- Three events of one entity at the same minute of day on three distinct
weekdays: every day bucket is a singleton. -/
def c8Events : List DeviceEvent :=
  [mkC1Ev 151200000000 "on", mkC1Ev 237600000000 "on", mkC1Ev 324000000000 "on"]

/-- C8 counterexample: in this group every day bucket has standard
deviation 0 ≤ 30 minutes (variance 0 ≤ 900) and the aggregate count is 3,
so under the claim ("a day qualifies exactly when its stdev is at most 30")
a pattern would be produced — but analyze_time_pattern returns none,
because a day with fewer than two occurrences never qualifies. -/
theorem analyze_time_pattern_singleton_days_cex :
    analyze_time_pattern ratSqrt "light.x" "on" c8Events = none
    ∧ (timesByDay c8Events).all (fun dl => decide (sampleVariance dl.2 ≤ 900)) = true
    ∧ ((timesByDay c8Events).map (fun dl => dl.2)).flatten.length = 3 := by
  refine ⟨?_, ?_, ?_⟩
  · with_unfolding_all rfl
  · with_unfolding_all rfl
  · with_unfolding_all rfl

def cDefaultSuggestion : PatternSuggestion :=
  { pattern_id := 0, pattern_type := .time_based, title := "", description := "",
    command := "", confidence := 0, occurrence_count := 0, entities_involved := [] }

def c9P1 : DetectedPattern :=
  { id := some 1, pattern_type := .time_based, entity_ids := ["light.keep"],
    pattern_data := .time "07:30" "08:30" [] "on" "08:00" 0, confidence := 4/5,
    occurrence_count := 5, first_seen := 0, last_seen := 0 }

def c9P2 : DetectedPattern :=
  { id := some 2, pattern_type := .time_based, entity_ids := ["light.dismiss"],
    pattern_data := .time "08:30" "09:30" [] "on" "09:00" 0, confidence := 9/10,
    occurrence_count := 10, first_seen := 0, last_seen := 0 }

def c9Store : PatternStore :=
  { rows := [c9P1, c9P2], prefs := [(2, "dismissed")], next_id := 3 }

def c9Sugg : PatternSuggestion :=
  (generate_suggestions none (1/2) 5 c9Store).headD cDefaultSuggestion

/-- C9 witness: the generator contract at a concrete store in which the
higher-confidence pattern is dismissed. -/
theorem generate_suggestions_spec_witness :
    (∃ p ∈ c9Store.rows, p.is_active = true ∧ (1/2 : ℚ) ≤ p.confidence ∧
      p.id = some c9Sugg.pattern_id ∧ c9Sugg.confidence = p.confidence ∧
      c9Sugg.occurrence_count = p.occurrence_count ∧
      ¬ c9Sugg.pattern_id ∈ get_dismissed_pattern_ids c9Store)
    ∧ (generate_suggestions none (1/2) 5 c9Store).length ≤ 5 :=
  ⟨(generate_suggestions_spec none (1/2) 5 c9Store).1 c9Sugg
      (of_decide_eq_true (by with_unfolding_all rfl)),
   (generate_suggestions_spec none (1/2) 5 c9Store).2.2⟩
